import Mathlib

/-!
A shallow embedding of the point-conversion core of the `anypp` command line
tool (source file `src/anypp/cli.py`), together with proofs about its parsing
and formatting functions.

Modelling conventions, stated once here:

* Python strings are Lean `String`s; most work happens on `List Char`.
* Python `float` values are modelled by `PyFloat`: a finite value is the exact
  decimal `m / 10 ^ e` (every finite binary64 value has an exact decimal
  expansion), plus distinguished `nan` and infinity values.  `pyRepr` models
  `str(float)` in positional decimal notation (Python switches to scientific
  notation for very large or very small magnitudes; that regime is outside the
  positional fragment modelled here and is not exercised by any claim).
* Character classes (`str.isalnum`, regex `\s`, `\w`, `str.splitlines`
  boundaries, `float()` digits) are modelled over ASCII and the Latin-1 block,
  which covers every input exercised here; code points at or above U+0100 are
  treated as non-alphanumeric.
* Fallible Python operations (exceptions) are modelled with `Option`/`Except`.
* Recursions that are not structural in Lean take an explicit fuel argument;
  callers pass a fuel that exceeds any possible recursion depth (at least the
  length of the input string plus one), so the fuel never runs out.
-/

namespace Anypp

/-- Model of the character class matched by Python's regex `\s` and by the
whitespace stripping of `float()` (ASCII whitespace, the C0 separators,
NEL, NBSP and the Unicode line/paragraph separators). -/

def pyIsSpace (c : Char) : Bool :=
  c.toNat = 32 || c.toNat = 9 || c.toNat = 10 || c.toNat = 13 ||
  c.toNat = 11 || c.toNat = 12 || (28 ≤ c.toNat && c.toNat ≤ 31) ||
  c.toNat = 133 || c.toNat = 160 || c.toNat = 8232 || c.toNat = 8233

/-- The line boundaries recognised by Python's `str.splitlines`. -/

def isPyLineBreak (c : Char) : Bool :=
  c.toNat = 10 || c.toNat = 11 || c.toNat = 12 || c.toNat = 13 ||
  (28 ≤ c.toNat && c.toNat ≤ 30) || c.toNat = 133 ||
  c.toNat = 8232 || c.toNat = 8233

/-- ASCII decimal digit. -/

def isDig (c : Char) : Bool := 48 ≤ c.toNat && c.toNat ≤ 57

/-- ASCII letter or ASCII digit. -/

def asciiAlnum (c : Char) : Bool :=
  (48 ≤ c.toNat && c.toNat ≤ 57) || (65 ≤ c.toNat && c.toNat ≤ 90) ||
  (97 ≤ c.toNat && c.toNat ≤ 122)

/-- The Latin-1 code points above ASCII for which Python's `str.isalnum`
returns `True` (from the Unicode character database: the feminine and
masculine ordinal indicators, superscripts, micro sign, vulgar fractions, and
the Latin-1 letters minus the multiplication and division signs). -/

def latin1Alnum (c : Char) : Bool :=
  c.toNat = 170 || c.toNat = 178 || c.toNat = 179 || c.toNat = 181 ||
  c.toNat = 185 || c.toNat = 186 || (188 ≤ c.toNat && c.toNat ≤ 190) ||
  (192 ≤ c.toNat && c.toNat ≤ 214) || (216 ≤ c.toNat && c.toNat ≤ 246) ||
  (248 ≤ c.toNat && c.toNat ≤ 255)

/-- Model of Python's per-character `str.isalnum`, exact on ASCII and the
Latin-1 block; code points at or above U+0100 are treated as not
alphanumeric (see the module conventions). -/

def pyIsAlnum (c : Char) : Bool := asciiAlnum c || latin1Alnum c

/-- Model of the character class matched by Python's regex `\w`
(alphanumeric or underscore). -/

def pyIsWord (c : Char) : Bool := pyIsAlnum c || c.toNat = 95

/-! ### Decimal digit strings -/

/-- The decimal digit character for a value below ten. -/

def digitCh : Nat → Char
  | 0 => '0' | 1 => '1' | 2 => '2' | 3 => '3' | 4 => '4'
  | 5 => '5' | 6 => '6' | 7 => '7' | 8 => '8' | 9 => '9'
  | _ => '*'

/-- Numeric value of a decimal digit character. -/

def digitVal (c : Char) : Nat := c.toNat - 48

/-- Value of a big-endian decimal digit string (how `int`/`float` read a
digit run). -/

def decValL (cs : List Char) : Nat := cs.foldl (fun a c => a * 10 + digitVal c) 0

/-- Little-endian digit expansion of a natural number, with fuel. -/

def natToDecAux : Nat → Nat → List Char
  | 0, _ => []
  | f + 1, n => if n < 10 then [digitCh n] else digitCh (n % 10) :: natToDecAux f (n / 10)

/-- Big-endian decimal digit string of a natural number (how `str` prints
an unsigned integer part). -/

def natToDecL (n : Nat) : List Char := (natToDecAux (n + 1) n).reverse

/-! ### Python floats as exact decimals -/

/-- Model of a Python `float` as used by this tool: a finite value is the
exact decimal `m / 10 ^ e`; `nan` and the two infinities are distinguished
values (see the module conventions). -/

inductive PyFloat where
  | finite (m : Int) (e : Nat)
  | nan
  | inf
  | ninf
deriving DecidableEq

/-- Strip trailing decimal zeros: the canonical decimal form of a value, the
one `str(float)` shows. -/

def normFN : Nat → Nat → Nat × Nat
  | m, 0 => (m, 0)
  | m, e + 1 => if m % 10 = 0 then normFN (m / 10) (e + 1 - 1) else (m, e + 1)

/-- A finite `PyFloat` in lowest decimal form (the textual form printed by
`str` reads back to exactly this representation). -/

def PyFloat.isCanonF : PyFloat → Bool
  | .finite _ 0 => true
  | .finite m (_ + 1) => decide (m.natAbs % 10 ≠ 0)
  | _ => false

/-- The NaN predicate (`math.isnan` / `x != x` in Python). -/

def PyFloat.isNanF : PyFloat → Bool
  | .nan => true
  | _ => false

/-- Integer and fractional digit strings of the positional decimal rendering
of `m / 10 ^ e` (the fractional part of an integral value is the single
digit `0`, matching `str(3.0) = "3.0")`. -/

def reprDigits (m : Int) (e : Nat) : List Char × List Char :=
  let ds := natToDecL m.natAbs
  if e = 0 then (ds, ['0'])
  else
    let pad := List.replicate (e + 1 - ds.length) '0' ++ ds
    (pad.take (pad.length - e), pad.drop (pad.length - e))

/-- Model of Python's `str`/`repr` of a float, positional fragment. -/

def pyReprFL (f : PyFloat) : List Char :=
  match f with
  | .finite m e => (if m < 0 then ['-'] else []) ++ (reprDigits m e).1 ++ '.' :: (reprDigits m e).2
  | .nan => ['n', 'a', 'n']
  | .inf => ['i', 'n', 'f']
  | .ninf => ['-', 'i', 'n', 'f']

/-- Model of Python's `str(float)` (positional fragment). -/

def pyRepr (f : PyFloat) : String := String.mk (pyReprFL f)

/-- Assemble a finite float from sign, mantissa digits value, fractional
length and decimal exponent, normalising trailing zeros. -/

def mkFin (neg : Bool) (m0 : Nat) (e0 : Nat) (ex : Int) : PyFloat :=
  let t : Int := ex - (e0 : Int)
  let me : Nat × Nat := if 0 ≤ t then (m0 * 10 ^ t.toNat, 0) else (m0, (-t).toNat)
  let p := normFN me.1 me.2
  PyFloat.finite (if neg then -(p.1 : Int) else (p.1 : Int)) p.2

/-- Strip an optional leading sign, reporting whether it was a minus. -/

def fosSign (cs : List Char) : Bool × List Char :=
  if cs.head? == some '-' then (true, cs.tail)
  else if cs.head? == some '+' then (false, cs.tail)
  else (false, cs)

/-- Evaluate the signed exponent digit run of `float(str)`. -/

def fosExpDigits (neg : Bool) (d1 d2 : List Char) (esp : Bool × List Char) :
    Option PyFloat :=
  if (esp.2.takeWhile isDig).isEmpty || !(esp.2.dropWhile isDig).isEmpty then none
  else
    some (mkFin neg (decValL (d1 ++ d2)) d2.length
      (if esp.1 then -(decValL (esp.2.takeWhile isDig) : Int)
       else (decValL (esp.2.takeWhile isDig) : Int)))

/-- The exponent suffix of `float(str)` after the letter `e`: an optional
sign and a mandatory digit run that must reach the end of the text. -/

def fosExp (neg : Bool) (d1 d2 rest : List Char) : Option PyFloat :=
  fosExpDigits neg d1 d2
    (if rest.head? == some '-' then (true, rest.tail)
     else if rest.head? == some '+' then (false, rest.tail)
     else (false, rest))

/-- The tail of `float(str)` once the integer digits `d1` and the fraction
split `fr` (fraction digits, remaining text) are isolated. -/

def fosAfterDot (neg : Bool) (d1 : List Char) (fr : List Char × List Char) :
    Option PyFloat :=
  if d1.isEmpty && fr.1.isEmpty then none
  else
    match fr.2 with
    | [] => some (mkFin neg (decValL (d1 ++ fr.1)) fr.1.length 0)
    | e :: rest =>
      if e = 'e' || e = 'E' then fosExp neg d1 fr.1 rest else none

/-- The digits-dot-digits-exponent part of `float(str)`, after sign and the
special `nan`/`inf` spellings have been dealt with. -/

def fosDigits (neg : Bool) (cs1 : List Char) : Option PyFloat :=
  fosAfterDot neg (cs1.takeWhile isDig)
    (if (cs1.dropWhile isDig).head? == some '.' then
      ((cs1.dropWhile isDig).tail.takeWhile isDig,
        (cs1.dropWhile isDig).tail.dropWhile isDig)
    else ([], cs1.dropWhile isDig))

/-- Core of the model of Python's `float(str)` constructor: sign, `nan`,
`inf`/`infinity` (case-insensitively via ASCII lowercasing), or a decimal
number with optional fraction and exponent.  Digit-group underscores and
non-ASCII digits are not modelled. -/

def floatOfStringCore (cs : List Char) : Option PyFloat :=
  if (fosSign cs).2.map Char.toLower = ['n', 'a', 'n'] then some PyFloat.nan
  else if (fosSign cs).2.map Char.toLower = ['i', 'n', 'f'] then
    some (if (fosSign cs).1 then PyFloat.ninf else PyFloat.inf)
  else if (fosSign cs).2.map Char.toLower = ['i', 'n', 'f', 'i', 'n', 'i', 't', 'y'] then
    some (if (fosSign cs).1 then PyFloat.ninf else PyFloat.inf)
  else fosDigits (fosSign cs).1 (fosSign cs).2

/-- Model of Python's `float(str)`: strip surrounding whitespace, then parse. -/

def floatOfStringL (cs : List Char) : Option PyFloat :=
  floatOfStringCore (((cs.dropWhile pyIsSpace).reverse.dropWhile pyIsSpace).reverse)

/-- Model of Python's `float(str)` on `String`. -/

def floatOfString (s : String) : Option PyFloat := floatOfStringL s.toList

/-! ### Python literal values and `ast.literal_eval` -/

/-- A Python value produced by `ast.literal_eval` in this code base: an
integer, a float, a string, a (possibly nested) list, or `None`.  Booleans,
tuples, dicts, sets and complex numbers never arise from the value texts this
tool feeds to `literal_eval` and are not modelled. -/

inductive PyVal where
  | int (n : Int)
  | float (f : PyFloat)
  | str (s : String)
  | list (xs : List PyVal)
  | none

/-- Python `==` on floats: finite values compare by value, NaN is unequal to
everything including itself. -/

def pyFloatEqB : PyFloat → PyFloat → Bool
  | .finite m1 e1, .finite m2 e2 => m1 * 10 ^ e2 == m2 * 10 ^ e1
  | .inf, .inf => true
  | .ninf, .ninf => true
  | _, _ => false

/-- Python `==` on the modelled values.  Numbers compare numerically across
`int`/`float`, strings compare as strings, values of different kinds compare
unequal.  Element-wise list comparison is not modelled (the code only ever
compares elements against the scalar string `"nan"`, and in Python a list
compares unequal to a string). -/

def pyEq : PyVal → PyVal → Bool
  | .int a, .int b => a == b
  | .int a, .float f => pyFloatEqB (.finite a 0) f
  | .float f, .int b => pyFloatEqB f (.finite b 0)
  | .float f, .float g => pyFloatEqB f g
  | .str a, .str b => a == b
  | .none, .none => true
  | _, _ => false

/-- Model of `_recursive_replace` (cli.py lines 190-195): walk a nested list
and replace every non-list element equal to `old` by `new`.  The Python
version mutates in place; this is the same transform written purely.  A
non-list argument is returned unchanged (the code never passes one). -/

def _recursive_replace : Nat → PyVal → PyVal → PyVal → PyVal
  | 0, _, _, v => v
  | f + 1, old, new, PyVal.list xs =>
    PyVal.list (xs.map fun e =>
      match e with
      | PyVal.list ys => _recursive_replace f old new (PyVal.list ys)
      | e => if pyEq e old then new else e)
  | _ + 1, _, _, v => v

/-- Is this value an `int` or `float` leaf? -/

def isNumLeaf : PyVal → Bool
  | .int _ => true
  | .float _ => true
  | _ => false

/-- All leaves of a nested list are numeric (fuelled walk). -/

def allNumeric : Nat → PyVal → Bool
  | 0, _ => false
  | f + 1, PyVal.list xs => xs.all fun e => allNumeric f e
  | _ + 1, v => isNumLeaf v

/-- Some leaf of a nested list is a float (fuelled walk). -/

def hasFloatLeaf : Nat → PyVal → Bool
  | 0, _ => false
  | f + 1, PyVal.list xs => xs.any fun e => hasFloatLeaf f e
  | _ + 1, PyVal.float _ => true
  | _ + 1, _ => false

/-- Upcast every integer leaf to a float (what building a float64 array does
to mixed int/float nested lists). -/

def npCast : Nat → PyVal → PyVal
  | 0, v => v
  | f + 1, PyVal.list xs => PyVal.list (xs.map fun e => npCast f e)
  | _ + 1, PyVal.int n => PyVal.float (PyFloat.finite n 0)
  | _ + 1, v => v

/-- Model of `numpy.array` on a parsed list, at the fidelity this tool
relies on: a nested list whose leaves are all numeric with at least one
float becomes a float64 array (ints upcast); an all-int list stays integer;
anything else is kept as is (object/string coercion is not modelled, no
claim exercises it). -/

def npArrayOf (fuel : Nat) (v : PyVal) : PyVal :=
  if allNumeric fuel v && hasFloatLeaf fuel v then npCast fuel v else v

/-- Skip the spaces and tabs `ast.parse` ignores between tokens. -/

def lSkipWs (cs : List Char) : List Char :=
  cs.dropWhile fun c => c.toNat = 32 || c.toNat = 9

/-- Scan a single-quoted or double-quoted string body up to the closing
delimiter `q`; escape sequences are not modelled (none of the rewritten
value texts contain them). -/

def scanStr (q : Char) : List Char → Option (List Char × List Char)
  | [] => Option.none
  | c :: rest =>
    if c = q then some ([], rest)
    else (scanStr q rest).map fun p => (c :: p.1, p.2)

/-- Scan a triple-quoted string body up to the closing run of three `q`s. -/

def scanTriple (q : Char) : List Char → Option (List Char × List Char)
  | a :: b :: c :: rest =>
    if a = q && b = q && c = q then some ([], rest)
    else (scanTriple q (b :: c :: rest)).map fun p => (a :: p.1, p.2)
  | _ => Option.none

/-- Can this character extend a Python name token?  Used to keep `None` from
matching a prefix of a longer name. -/

def nameTailCh (c : Char) : Bool := asciiAlnum c || c.toNat = 95

/-- Parse the signed digits of an exponent suffix inside a numeric token. -/

def parseNumExp (d1 d2 : List Char) (rest : List Char) :
    Option (PyVal × List Char) :=
  let esp : Bool × List Char :=
    match rest with
    | '-' :: r => (true, r)
    | '+' :: r => (false, r)
    | r => (false, r)
  let ed := esp.2.takeWhile isDig
  let er := esp.2.dropWhile isDig
  if ed.isEmpty then Option.none
  else
    let ev : Int := if esp.1 then -(decValL ed : Int) else (decValL ed : Int)
    some (PyVal.float (mkFin false (decValL (d1 ++ d2)) d2.length ev), er)

/-- Parse a numeric literal (integer or float) at the head of the input,
returning the value and the unconsumed suffix. -/

def parseNum (cs : List Char) : Option (PyVal × List Char) :=
  let d1 := cs.takeWhile isDig
  let r1 := cs.dropWhile isDig
  let fr : List Char × List Char × Bool :=
    match r1 with
    | '.' :: rest => (rest.takeWhile isDig, rest.dropWhile isDig, true)
    | _ => ([], r1, false)
  let d2 := fr.1
  let r2 := fr.2.1
  let isF := fr.2.2
  if d1.isEmpty && d2.isEmpty then Option.none
  else
    match r2 with
    | 'e' :: rest => parseNumExp d1 d2 rest
    | 'E' :: rest => parseNumExp d1 d2 rest
    | _ =>
      if isF then some (PyVal.float (mkFin false (decValL (d1 ++ d2)) d2.length 0), r2)
      else some (PyVal.int (decValL d1), r2)

/-- Negate a parsed numeric literal (unary minus on a number). -/

def negVal : PyVal → PyVal
  | .int n => .int (-n)
  | .float (.finite m e) => .float (.finite (-m) e)
  | v => v

/-- Parse the comma-separated items of a list literal after the opening
bracket, using `pe` for single expressions; handles the empty list and a
trailing comma, and stops at the closing bracket. -/

def parseItemsH (pe : List Char → Option (PyVal × List Char)) :
    Nat → List Char → Option (List PyVal × List Char)
  | 0, _ => Option.none
  | _ + 1, ']' :: rest => some ([], rest)
  | f + 1, cs =>
    match pe cs with
    | some (v, r) =>
      match lSkipWs r with
      | ',' :: r2 =>
        (parseItemsH pe f (lSkipWs r2)).map fun p => (v :: p.1, p.2)
      | ']' :: r2 => some ([v], r2)
      | _ => Option.none
    | Option.none => Option.none

/-- Recursive-descent model of the literal grammar evaluated by
`ast.literal_eval`, restricted to the fragment this tool can produce:
signed numbers, single/double/triple-quoted strings, nested list literals
and `None`.  A name token (such as `nan`) fails, exactly as `literal_eval`
raises for it. -/

def parseLit : Nat → List Char → Option (PyVal × List Char)
  | 0, _ => Option.none
  | f + 1, cs0 =>
    match lSkipWs cs0 with
    | '[' :: rest =>
      match parseItemsH (parseLit f) (rest.length + 1) (lSkipWs rest) with
      | some (vs, r) => some (PyVal.list vs, r)
      | Option.none => Option.none
    | '\x27' :: '\x27' :: '\x27' :: rest =>
      (scanTriple '\x27' rest).map fun p => (PyVal.str (String.mk p.1), p.2)
    | '\x22' :: '\x22' :: '\x22' :: rest =>
      (scanTriple '\x22' rest).map fun p => (PyVal.str (String.mk p.1), p.2)
    | '\x27' :: rest =>
      (scanStr '\x27' rest).map fun p => (PyVal.str (String.mk p.1), p.2)
    | '\x22' :: rest =>
      (scanStr '\x22' rest).map fun p => (PyVal.str (String.mk p.1), p.2)
    | '-' :: rest =>
      (parseNum rest).map fun p => (negVal p.1, p.2)
    | '+' :: rest => parseNum rest
    | 'N' :: 'o' :: 'n' :: 'e' :: rest =>
      match rest with
      | [] => some (PyVal.none, [])
      | c :: _ => if nameTailCh c then Option.none else some (PyVal.none, rest)
    | c :: rest =>
      if isDig c || c = '.' then parseNum (c :: rest) else Option.none
    | [] => Option.none

/-- Model of `ast.literal_eval` on the modelled grammar: parse one literal
expression and require only trailing spaces after it; `Option.none` stands
for the `SyntaxError`/`ValueError` the real call raises. -/

def literal_evalL (cs : List Char) : Option PyVal :=
  match parseLit (cs.length + 1) cs with
  | some (v, r) => if (lSkipWs r).isEmpty then some v else Option.none
  | Option.none => Option.none

/-- `ast.literal_eval` on `String`. -/

def literal_eval (s : String) : Option PyVal := literal_evalL s.toList

/-! ### String utilities used by `_parse_anyscript` -/

/-- Model of Python's `str.replace`: replace non-overlapping occurrences of
`pat` left to right (fuelled; `pat` is never empty in this code base). -/

def strReplaceL : Nat → List Char → List Char → List Char → List Char
  | 0, _, _, cs => cs
  | _ + 1, _, _, [] => []
  | f + 1, pat, rep, c :: rest =>
    if pat.isPrefixOf (c :: rest) then
      rep ++ strReplaceL f pat rep ((c :: rest).drop pat.length)
    else c :: strReplaceL f pat rep rest

/-- `str.replace` on `String`. -/

def strReplace (s pat rep : String) : String :=
  String.mk (strReplaceL (s.toList.length + 1) pat.toList rep.toList s.toList)

/-- Model of Python's `in` substring test. -/

def isSubstrL (pat : List Char) : List Char → Bool
  | [] => pat.isEmpty
  | c :: rest => pat.isPrefixOf (c :: rest) || isSubstrL pat rest

/-- `str.startswith`. -/

def strStartsWith (s p : String) : Bool := p.toList.isPrefixOf s.toList

/-- `str.endswith`. -/

def strEndsWith (s p : String) : Bool := p.toList.reverse.isPrefixOf s.toList.reverse

/-- The character class excluded from bare-token wrapping: the regex
`TRIPEL_QUOTE_WRAP = re.compile(r'([^\[\]",\s]+)')` wraps every maximal run
of characters that are none of `[`, `]`, `"`, `,` or whitespace. -/

def isBareChar (c : Char) : Bool :=
  !(c = '[' || c = ']' || c = '\x22' || c = ',' || pyIsSpace c)

/-- Model of `TRIPEL_QUOTE_WRAP.subn(r"'''\1'''", val)`: wrap every maximal
run of bare characters in triple quotes. -/

def tqWrapL : Nat → List Char → List Char
  | 0, cs => cs
  | _ + 1, [] => []
  | f + 1, c :: rest =>
    if isBareChar c then
      '\x27' :: '\x27' :: '\x27' :: ((c :: rest.takeWhile isBareChar) ++
        ('\x27' :: '\x27' :: '\x27' :: tqWrapL f (rest.dropWhile isBareChar)))
    else c :: tqWrapL f rest

/-- Drop the first and last character (Python `val[1:-1]`). -/

def strDropBoth (s : String) : String := String.mk ((s.toList.drop 1).dropLast)

/-- The last, most permissive normalisation attempt of `_parse_anyscript`
(cli.py lines 218-224): wrap bare tokens in triple quotes, turn the empty
text into `None`, re-wrap a fully double-quoted text in triple quotes, and
evaluate; failure here propagates to the caller. -/

def parseFallback (v2 : String) : Option PyVal :=
  let w := String.mk (tqWrapL (v2.toList.length + 1) v2.toList)
  let w1 := if w = ("") then ("None") else w
  let w2 :=
    if strStartsWith w1 ("\x22") && strEndsWith w1 ("\x22") then
      ("\x27\x27\x27") ++ strDropBoth w1 ++ ("\x27\x27\x27")
    else w1
  literal_eval w2

/-- Model of `_parse_anyscript` (cli.py lines 201-227): convert an AnyBody
value text to a value.  Braces become brackets, the ellipsis marker becomes
a quoted string, then layered `literal_eval` attempts run: plain, the
`nan,`-patch pass with recursive NaN replacement, and the bare-token
fallback.  A final list is converted through the `numpy.array` model.
`Option.none` models an uncaught `SyntaxError`/`ValueError`. -/

def _parse_anyscript (val0 : String) : Option PyVal :=
  let v1 :=
    if strStartsWith val0 ("\x7b") && strEndsWith val0 ("\x7d") then
      strReplace (strReplace val0 ("\x7b") ("[")) ("\x7d") ("]")
    else val0
  let v2 := if v1 = ("[...]") then ("\x22...\x22") else v1
  let step2 : Option PyVal :=
    match literal_eval v2 with
    | some out => some out
    | Option.none =>
      if isSubstrL ("nan,").toList v2.toList then
        match literal_eval (strReplace v2 ("nan,") (" \x22nan\x22,")) with
        | some out =>
          some (_recursive_replace (v2.toList.length + 1)
            (PyVal.str ("nan")) (PyVal.float PyFloat.nan) out)
        | Option.none => parseFallback v2
      else parseFallback v2
  match step2 with
  | some (PyVal.list xs) => some (npArrayOf (v2.toList.length + 1) (PyVal.list xs))
  | some v => some v
  | Option.none => Option.none

/-! ### The AnyScript line matcher and block parser -/

/-- Assemble the result of `splitLastBrace` from the reversed tail after
the last brace and the reversed remainder (which must start with the
brace). -/

def splitLastBraceAux (afterRev : List Char) : List Char → Option (List Char × List Char)
  | '\x7d' :: innerRev => some (innerRev.reverse, afterRev.reverse)
  | _ => Option.none

/-- Split at the last closing brace: return `(inner, after)` with
`cs = inner ++ [the last brace] ++ after` and no closing brace in `after`;
fails when there is no closing brace at all. -/

def splitLastBrace (cs : List Char) : Option (List Char × List Char) :=
  splitLastBraceAux (cs.reverse.takeWhile fun c => !(c = '\x7d'))
    (cs.reverse.dropWhile fun c => !(c = '\x7d'))

/-- The `\s*,?` step after the value group: skip whitespace, then one
optional comma. -/

def dropComma (t1 : List Char) : List Char :=
  if t1.head? == some ',' then t1.tail else t1

/-- The `[//]?` step: one optional slash (the regex class `[//]` contains
just a slash). -/

def dropSlash (t3 : List Char) : List Char :=
  if t3.head? == some '/' then t3.tail else t3

/-- Group 2 of the line regex: what remains of the text after the value
group once `\s*,?\s*[//]?\W*` has consumed greedily. -/

def commentTail (after : List Char) : List Char :=
  (dropSlash ((dropComma (after.dropWhile pyIsSpace)).dropWhile pyIsSpace)).dropWhile
    fun c => !(pyIsWord c)

/-- Dispatch on the result of `splitLastBrace`: group 1 needs at least one
character between the braces (the `.+`), then group 2 is the comment
tail. -/

def anyscriptGroupMatch2 : Option (List Char × List Char) →
    Option (List Char × List Char)
  | some (inner, after) =>
    if inner.isEmpty then Option.none
    else some ('\x7b' :: (inner ++ ['\x7d']), commentTail after)
  | Option.none => Option.none

/-- After the mandatory whitespace: group 1 must start with `{` and run to
the last `}` of the line. -/

def anyscriptGroupMatch : List Char → Option (List Char × List Char)
  | '\x7b' :: r2 => anyscriptGroupMatch2 (splitLastBrace r2)
  | _ => Option.none

/-- Model of matching one line against
`ANYSCRIPT_POINT_LINE = re.compile(r'\s+({.+})\s*,?\s*[//]?\W*(.*)')`
with `re.match` (anchored at the start).  Because everything after group 1
is optional and ends in `(.*)`, the greedy quantifiers resolve to maximal
munch: one or more whitespace characters, then group 1 runs from a `{` to
the last `}` of the line (with at least one character between), then
whitespace, an optional comma, whitespace, an optional single slash (the
class `[//]` holds just the slash), a maximal run of non-word characters,
and group 2 is the remainder.  Lines handed in by `splitlines` never
contain a line break, the only case where `.` and maximal munch would
diverge from the regex engine. -/

def anyscriptPointLineMatchL (cs : List Char) : Option (List Char × List Char) :=
  if (cs.takeWhile pyIsSpace).isEmpty then Option.none
  else anyscriptGroupMatch (cs.dropWhile pyIsSpace)

/-- The line matcher on `String`s: group 1 (the brace-delimited value text)
and group 2 (the trailing comment text). -/

def ANYSCRIPT_POINT_LINE_match (line : String) : Option (String × String) :=
  (anyscriptPointLineMatchL line.toList).map fun p => (String.mk p.1, String.mk p.2)

/-- Model of Python's `str.splitlines` (fuelled; the second argument
accumulates the current line in reverse): a `\x0d\x0a` pair counts as one
boundary, any other boundary character ends a line, and a final
unterminated line is kept. -/

def pySplitlinesL : Nat → List Char → List Char → List String
  | 0, acc, _ => if acc.isEmpty then [] else [String.mk acc.reverse]
  | _ + 1, acc, [] => if acc.isEmpty then [] else [String.mk acc.reverse]
  | f + 1, acc, c :: rest =>
    if c = '\x0d' then
      String.mk acc.reverse ::
        pySplitlinesL f [] (if rest.head? == some '\x0a' then rest.tail else rest)
    else if isPyLineBreak c then String.mk acc.reverse :: pySplitlinesL f [] rest
    else pySplitlinesL f (c :: acc) rest

/-- `str.splitlines` on `String`. -/

def pySplitlines (s : String) : List String :=
  pySplitlinesL (s.toList.length + 1) [] s.toList

/-- Insertion into a Python `dict` modelled as an ordered association list:
a new key appends at the end, an existing key keeps its position and gets
the new value. -/

def dictInsert {α : Type} (k : String) (v : α) : List (String × α) → List (String × α)
  | [] => [(k, v)]
  | p :: rest => if p.1 = k then (k, v) :: rest else p :: dictInsert k v rest

/-- Model of `parse_anyanyscript` (cli.py lines 170-180): split the input
into lines, match each against `ANYSCRIPT_POINT_LINE`, parse the value text
of matching lines with `_parse_anyscript`, and store the result under the
comment text; lines that fail to match or to parse are skipped silently. -/

def parse_anyanyscript (data : String) : List (String × PyVal) :=
  (pySplitlines data).foldl
    (fun points line =>
      match ANYSCRIPT_POINT_LINE_match line with
      | some (val, name) =>
        match _parse_anyscript val with
        | some v => dictInsert name v points
        | Option.none => points
      | Option.none => points)
    []

/-! ### The pick-points XML reader -/

/-- An XML element: tag, attributes in document order, child elements in
document order.  Only the structure `parse_pp_file` consults is kept: text
nodes, comments and processing instructions inside content are skipped by
the parser below and not represented. -/

inductive XTree where
  | elem (tag : String) (attrs : List (String × String)) (children : List XTree)

/-- Whitespace as the XML parser skips it. -/

def isXmlSpace (c : Char) : Bool :=
  c.toNat = 32 || c.toNat = 9 || c.toNat = 10 || c.toNat = 13

/-- Characters accepted in the modelled XML names (ASCII fragment). -/

def isXmlNameCh (c : Char) : Bool :=
  asciiAlnum c || c = '_' || c = '-' || c = '.' || c = ':'

/-- One attribute equation: `=`, a quoted value, then hand the rest to the
continuation `pa` and prepend the parsed pair. -/

def parseXAttrsEq (pa : List Char → Option (List (String × String) × List Char))
    (nm : List Char) : List Char → Option (List (String × String) × List Char)
  | '=' :: '\x22' :: r3 =>
    match scanStr '\x22' r3 with
    | some (v, r4) =>
      (pa r4).map fun p => ((String.mk nm, String.mk v) :: p.1, p.2)
    | Option.none => Option.none
  | '=' :: '\x27' :: r3 =>
    match scanStr '\x27' r3 with
    | some (v, r4) =>
      (pa r4).map fun p => ((String.mk nm, String.mk v) :: p.1, p.2)
    | Option.none => Option.none
  | _ => Option.none

/-- Attribute-list step on whitespace-stripped text: stop before `/` or
`>`, otherwise read one name and its quoted value. -/

def parseXAttrsBody (pa : List Char → Option (List (String × String) × List Char))
    (cs1 : List Char) : Option (List (String × String) × List Char) :=
  if cs1.head? == some '/' || cs1.head? == some '>' then some ([], cs1)
  else if (cs1.takeWhile isXmlNameCh).isEmpty then Option.none
  else parseXAttrsEq pa (cs1.takeWhile isXmlNameCh) (cs1.dropWhile isXmlNameCh)

/-- Parse the attribute list of a start tag: repeatedly a name, `=`, and a
single- or double-quoted value, until a `/` or `>` is reached (fuelled per
attribute). -/

def parseXAttrs : Nat → List Char → Option (List (String × String) × List Char)
  | 0, _ => Option.none
  | f + 1, cs => parseXAttrsBody (parseXAttrs f) (cs.dropWhile isXmlSpace)

/-- Parse the children of an element: skip text up to the next markup, stop
before a closing tag, and parse nested elements with `pe` (fuelled per
child). -/

def parseXChildrenH (pe : List Char → Option (XTree × List Char)) :
    Nat → List Char → Option (List XTree × List Char)
  | 0, _ => Option.none
  | f + 1, cs =>
    let cs1 := cs.dropWhile fun c => !(c = '<')
    match cs1 with
    | '<' :: '/' :: rest => some ([], '<' :: '/' :: rest)
    | '<' :: _ =>
      match pe cs1 with
      | some (t, r) => (parseXChildrenH pe f r).map fun p => (t :: p.1, p.2)
      | Option.none => Option.none
    | _ => Option.none

/-- Finish an element whose tag and attributes are parsed: either a
self-closing `/>`, or `>`, children, and a matching close tag. -/

def parseXElemTail (tag : List Char)
    (pe : List Char → Option (XTree × List Char)) :
    Option (List (String × String) × List Char) → Option (XTree × List Char)
  | some (attrs, '/' :: '>' :: r3) => some (XTree.elem (String.mk tag) attrs [], r3)
  | some (attrs, '>' :: r3) =>
    match parseXChildrenH pe (r3.length + 1) r3 with
    | some (chs, '<' :: '/' :: r5) =>
      if r5.takeWhile isXmlNameCh = tag then
        match (r5.dropWhile isXmlNameCh).dropWhile isXmlSpace with
        | '>' :: r7 => some (XTree.elem (String.mk tag) attrs chs, r7)
        | _ => Option.none
      else Option.none
    | _ => Option.none
  | _ => Option.none

/-- Parse one element: `<`, name, attributes, then either `/>` or `>`,
children, and a matching close tag (fuelled per nesting level). -/

def parseXElement : Nat → List Char → Option (XTree × List Char)
  | 0, _ => Option.none
  | f + 1, cs =>
    match cs with
    | '<' :: cs1 =>
      if (cs1.takeWhile isXmlNameCh).isEmpty then Option.none
      else
        parseXElemTail (cs1.takeWhile isXmlNameCh) (parseXElement f)
          (parseXAttrs ((cs1.dropWhile isXmlNameCh).length + 1)
            (cs1.dropWhile isXmlNameCh))
    | _ => Option.none

/-- Skip leading whitespace and prolog constructs (`<?...?>` declarations
and `<!DOCTYPE...>`, without internal subsets) before the root element. -/

def skipProlog : Nat → List Char → List Char
  | 0, cs => cs
  | f + 1, cs =>
    let cs1 := cs.dropWhile isXmlSpace
    match cs1 with
    | '<' :: '!' :: rest => skipProlog f ((rest.dropWhile fun c => !(c = '>')).drop 1)
    | '<' :: '?' :: rest => skipProlog f ((rest.dropWhile fun c => !(c = '>')).drop 1)
    | _ => cs1

/-- Accept the parsed root element when only whitespace follows it
(several sibling roots are the classic `junk after document element`
error); a parse failure is a syntax error. -/

def xmlFinish : Option (XTree × List Char) → Except String XTree
  | some (t, rest) =>
    if (rest.dropWhile isXmlSpace).isEmpty then Except.ok t
    else Except.error ("junk after document element")
  | Option.none => Except.error ("syntax error")

/-- Model of `xml.etree.ElementTree.fromstring`: an optional prolog, exactly
one root element, and only whitespace after it.  Diagnostics are abstracted
to short message strings. -/

def xmlFromStringL (cs : List Char) : Except String XTree :=
  xmlFinish (parseXElement ((skipProlog (cs.length + 1) cs).length + 1)
    (skipProlog (cs.length + 1) cs))

/-- `ElementTree.fromstring` on `String`. -/

def xmlFromString (s : String) : Except String XTree := xmlFromStringL s.toList

/-- Model of `Element.iter(tag)`: the element itself (when its tag matches)
followed by all matching descendants, in document order (fuelled per
depth). -/

def iterTag : Nat → String → XTree → List XTree
  | 0, _, _ => []
  | f + 1, t, XTree.elem tag attrs ch =>
    (if tag = t then [XTree.elem tag attrs ch] else []) ++
      (ch.map fun c => iterTag f t c).flatten

/-- Attribute lookup on an element (`elem.attrib[k]` when present). -/

def getAttr (attrs : List (String × String)) (k : String) : Option String :=
  (attrs.find? fun p => p.1 == k).map fun p => p.2

/-- A named 3-component point (the `numpy.array` of three floats). -/

abbrev Vec3 := PyFloat × PyFloat × PyFloat

/-- Errors escaping `parse_pp_file`: the `ValueError` it raises itself for
malformed XML (the spec's `FormatError`), and the uncaught `KeyError` from
`elem.attrib[...]` when a point element lacks an attribute. -/

inductive PPErr where
  | formatError (msg : String)
  | keyError (key : String)
deriving DecidableEq

/-- Processing of one `point` element inside the loop of `parse_pp_file`:
look up and float-parse `x`, `y`, `z` in order (a missing attribute raises
`KeyError`, a failed float parse skips the element), then look up `name`
and insert. -/

def ppPoint (acc : List (String × Vec3)) (t : XTree) : Except PPErr (List (String × Vec3)) :=
  match t with
  | XTree.elem _ attrs _ =>
    match getAttr attrs ("x") with
    | Option.none => Except.error (PPErr.keyError ("x"))
    | some xs =>
      match floatOfString xs with
      | Option.none => Except.ok acc
      | some x =>
        match getAttr attrs ("y") with
        | Option.none => Except.error (PPErr.keyError ("y"))
        | some ys =>
          match floatOfString ys with
          | Option.none => Except.ok acc
          | some y =>
            match getAttr attrs ("z") with
            | Option.none => Except.error (PPErr.keyError ("z"))
            | some zs =>
              match floatOfString zs with
              | Option.none => Except.ok acc
              | some z =>
                match getAttr attrs ("name") with
                | Option.none => Except.error (PPErr.keyError ("name"))
                | some nm => Except.ok (dictInsert nm (x, y, z) acc)

/-- Dispatch on the XML parse result: a failure becomes the `ValueError`
carrying the diagnostic, a tree is walked over its `point` elements. -/

def ppFromXml (fuel : Nat) : Except String XTree → Except PPErr (List (String × Vec3))
  | Except.error e =>
    Except.error (PPErr.formatError (("Could not parse XML file: ") ++ e))
  | Except.ok tree => (iterTag fuel ("point") tree).foldlM ppPoint []

/-- Model of `parse_pp_file` (cli.py lines 116-131): parse the XML (a parse
failure becomes the `ValueError` carrying the diagnostic), then walk every
`point` element in document order, dropping elements whose coordinates fail
to parse and propagating the `KeyError` of a missing attribute. -/

def parse_pp_file (data : String) : Except PPErr (List (String × Vec3)) :=
  ppFromXml (data.toList.length + 1) (xmlFromString data)

/-! ### The formatters -/

/-- The name sanitiser shared by both AnyScript formatters (cli.py lines
150 and 160): `"".join(c if c.isalnum() else "_" for c in name)`. -/

def sanitizeName (name : String) : String :=
  String.mk (name.toList.map fun c => if pyIsAlnum c then c else '_')

/-- Model of `signal_last` (cli.py lines 134-140): tag every element of a
sequence with an is-last flag.  On an empty sequence the generator's first
`next` raises (`Option.none` here); otherwise the list of tagged elements. -/

def signal_last_aux {α : Type} (cur : α) : List α → List (Bool × α)
  | [] => [(true, cur)]
  | v :: rest => (false, cur) :: signal_last_aux v rest

/-- `signal_last` as the source uses it: the tagged items, or a raised
error on an empty input. -/

def signal_last {α : Type} : List α → Option (List (Bool × α))
  | [] => Option.none
  | x :: xs => some (signal_last_aux x xs)

/-- The three coordinates as printed, comma-space separated. -/

def coordBody (v : Vec3) : String :=
  pyRepr v.1 ++ (", ") ++ pyRepr v.2.1 ++ (", ") ++ pyRepr v.2.2

/-- One output line of the pointcloud formatter, without the line break. -/

def pointcloudLineCore (isLast : Bool) (nm : String) (v : Vec3) : String :=
  ("\x7b") ++ coordBody v ++ ("\x7d") ++ (if isLast then ("") else (",")) ++
    (" // ") ++ sanitizeName nm ++ (" ")

/-- One output line of the pointcloud formatter (including the line
break). -/

def pointcloudLine (isLast : Bool) (nm : String) (v : Vec3) : String :=
  pointcloudLineCore isLast nm v ++ ("\x0a")

/-- Model of `format_anyscript_pointcloud` (cli.py lines 145-153): one line
per point, `{x, y, z}`, a comma on every line but the last, ` // `, the
sanitised name, a space and a line break.  `Option.none` models the error
raised through `signal_last` on an empty point set. -/

def format_anyscript_pointcloud (points : List (String × Vec3)) : Option String :=
  (signal_last points).map fun l =>
    String.join (l.map fun p => pointcloudLine p.1 p.2.1 p.2.2)

/-- Model of `format_anyscript` (cli.py lines 156-162): declaration mode,
`AnyFloat name = {x,y, z};` per point (one space after the second comma
only). -/

def format_anyscript (points : List (String × Vec3)) : String :=
  String.join (points.map fun p =>
    ("AnyFloat ") ++ sanitizeName p.1 ++ (" = \x7b") ++ pyRepr p.2.1 ++ (",") ++
      pyRepr p.2.2.1 ++ (", ") ++ pyRepr p.2.2.2 ++ ("\x7d;\x0a"))

/-- One output line of the pick-points writer. -/

def ppFileLine (nm : String) (v : Vec3) : String :=
  ("<point x=\x22") ++ pyRepr v.1 ++ ("\x22 y=\x22") ++ pyRepr v.2.1 ++
    ("\x22 z=\x22") ++ pyRepr v.2.2 ++ ("\x22 active=\x221\x22 name=\x22") ++
    nm ++ ("\x22 />\x0a")

/-- Model of `format_ppfile` (cli.py lines 183-187): one `<point ... />`
line per point, original (unsanitised) name, no root element. -/

def format_ppfile (points : List (String × Vec3)) : String :=
  String.join (points.map fun p => ppFileLine p.1 p.2)

/-! ### Claim theorems -/

/-- Does an `Except` computation end in `ok`? -/

def exceptIsOk {ε α : Type} : Except ε α → Bool
  | Except.ok _ => true
  | Except.error _ => false

/-- The one-point set used to exhibit the broken AnyScript round trip. -/

def c1Points : List (String × Vec3) :=
  [(("P1"), (PyFloat.finite 1 0, PyFloat.finite 2 0, PyFloat.finite 3 0))]

/-- The two-point set on which the XML round trip fails. -/

def c2Points : List (String × Vec3) :=
  [(("A"), (PyFloat.finite 1 0, PyFloat.finite 2 0, PyFloat.finite 3 0)),
   (("B"), (PyFloat.finite 4 0, PyFloat.finite 5 0, PyFloat.finite 6 0))]

/-! ### The pointcloud formatter line by line -/

/-- Index the elements of a list, starting at `i`. -/

def enumFrom {α : Type} : Nat → List α → List (Nat × α)
  | _, [] => []
  | i, x :: xs => (i, x) :: enumFrom (i + 1) xs

/-- The two-point set used to exhibit the trailing-comma layout. -/

def c9Points : List (String × Vec3) :=
  [(("A"), (PyFloat.finite 1 0, PyFloat.finite 2 0, PyFloat.finite 3 0)),
   (("B"), (PyFloat.finite 4 0, PyFloat.finite 5 0, PyFloat.finite 6 0))]

/-- The attribute text of the C5 input after the `name` value: nothing. -/

def c5R4 : List Char := (" name=\x22Q\x22/>").toList

/-- The attribute text of the C5 input from the `z` attribute on. -/

def c5R3 : List Char := (" z=\x222\x22").toList ++ c5R4

/-- The attribute text of the C5 input from the `y` attribute on. -/

def c5R2 : List Char := (" y=\x221\x22").toList ++ c5R3

/-- The whole attribute text of the C5 input, with the `x` value symbolic. -/

def c5R1 (t : String) : List Char :=
  (" x=\x22").toList ++ (t.toList ++ ('\x22' :: c5R2))

/-- The spec's malformed-point XML input, with the `x` value symbolic. -/

def c5Input (t : String) : String :=
  ("<point x=\x22") ++ t ++ ("\x22 y=\x221\x22 z=\x222\x22 name=\x22Q\x22/>")

/-- An AnyScript-identifier-safe name: non-empty, ASCII letters, digits and
underscores only. -/

def identSafe (s : String) : Bool :=
  !s.toList.isEmpty && s.toList.all fun c => asciiAlnum c || c = '_'

/-- The attribute text of the formatted point line after the name value. -/

def c2Rend : List Char := [' ', '/', '>', '\x0a']

/-- The formatted attribute text from the `name` attribute on. -/

def c2R5 (nm : String) : List Char :=
  (" name=\x22").toList ++ (nm.toList ++ ('\x22' :: c2Rend))

/-- The formatted attribute text from the `active` attribute on. -/

def c2R4 (nm : String) : List Char :=
  (" active=\x221\x22").toList ++ c2R5 nm

/-- The formatted attribute text from the `z` attribute on. -/

def c2R3 (z : PyFloat) (nm : String) : List Char :=
  (" z=\x22").toList ++ ((pyRepr z).toList ++ ('\x22' :: c2R4 nm))

/-- The formatted attribute text from the `y` attribute on. -/

def c2R2 (y z : PyFloat) (nm : String) : List Char :=
  (" y=\x22").toList ++ ((pyRepr y).toList ++ ('\x22' :: c2R3 z nm))

/-- The whole formatted attribute text of one point line. -/

def c2R1 (x y z : PyFloat) (nm : String) : List Char :=
  (" x=\x22").toList ++ ((pyRepr x).toList ++ ('\x22' :: c2R2 y z nm))

/-- Does this element carry all four attributes `parse_pp_file` reads? -/

def hasPointAttrs : XTree → Bool
  | XTree.elem _ attrs _ =>
    (getAttr attrs ("x")).isSome && (getAttr attrs ("y")).isSome &&
    (getAttr attrs ("z")).isSome && (getAttr attrs ("name")).isSome

theorem pyIsAlnum_ascii (c : Char) (h : c.toNat < 128) :
    pyIsAlnum c = asciiAlnum c := by
  have hl : latin1Alnum c = false := by
    simp only [latin1Alnum, Bool.or_eq_false_iff, decide_eq_false_iff_not,
      Bool.and_eq_false_iff]
    omega
  simp [pyIsAlnum, hl]

theorem pyIsAlnum_not_break (c : Char) (h : pyIsAlnum c = true) :
    isPyLineBreak c = false := by
  simp only [pyIsAlnum, asciiAlnum, latin1Alnum, Bool.or_eq_true,
    Bool.and_eq_true, decide_eq_true_eq] at h
  simp only [isPyLineBreak, Bool.or_eq_false_iff, decide_eq_false_iff_not,
    Bool.and_eq_false_iff]
  omega

theorem underscore_not_break : isPyLineBreak '_' = false := by decide

theorem pyIsAlnum_underscore : pyIsAlnum '_' = false := by decide

theorem digitCh_isDig {n : Nat} (h : n < 10) : isDig (digitCh n) = true := by
  interval_cases n <;> decide

theorem digitVal_digitCh {n : Nat} (h : n < 10) : digitVal (digitCh n) = n := by
  interval_cases n <;> decide

theorem digitCh_not_dot {n : Nat} (h : n < 10) : digitCh n ≠ '.' := by
  interval_cases n <;> decide

theorem natToDecAux_spec :
    ∀ f n, n < f →
      natToDecAux f n ≠ [] ∧
      (∀ c ∈ natToDecAux f n, isDig c = true) ∧
      (natToDecAux f n).foldr (fun c a => a * 10 + digitVal c) 0 = n := by
  intro f
  induction f with
  | zero => intro n h; omega
  | succ f ih =>
    intro n h
    by_cases h10 : n < 10
    · refine ⟨by simp [natToDecAux, h10], ?_, ?_⟩
      · intro c hc
        simp [natToDecAux, h10] at hc
        subst hc
        exact digitCh_isDig h10
      · simp [natToDecAux, h10, digitVal_digitCh h10]
    · have hrec : n / 10 < f := by
        have h1 : n / 10 < n := Nat.div_lt_self (by omega) (by omega)
        omega
      obtain ⟨hne, hdig, hval⟩ := ih (n / 10) hrec
      refine ⟨by simp [natToDecAux, h10], ?_, ?_⟩
      · intro c hc
        simp only [natToDecAux, if_neg h10, List.mem_cons] at hc
        rcases hc with hc | hc
        · subst hc; exact digitCh_isDig (Nat.mod_lt _ (by omega))
        · exact hdig c hc
      · simp only [natToDecAux, if_neg h10, List.foldr_cons, hval,
          digitVal_digitCh (Nat.mod_lt n (by omega : 0 < 10))]
        omega

theorem natToDecL_ne_nil (n : Nat) : natToDecL n ≠ [] := by
  have := (natToDecAux_spec (n + 1) n (by omega)).1
  simp only [natToDecL]
  intro h
  exact this (by simpa using h)

theorem natToDecL_digits (n : Nat) : ∀ c ∈ natToDecL n, isDig c = true := by
  intro c hc
  exact (natToDecAux_spec (n + 1) n (by omega)).2.1 c (by simpa [natToDecL] using hc)

theorem decValL_natToDecL (n : Nat) : decValL (natToDecL n) = n := by
  have := (natToDecAux_spec (n + 1) n (by omega)).2.2
  simp only [natToDecL, decValL, List.foldl_reverse]
  exact this

theorem decValL_append (a b : List Char) :
    decValL (a ++ b) = decValL a * 10 ^ b.length + decValL b := by
  induction b using List.reverseRecOn with
  | nil => simp [decValL]
  | append_singleton b c ih =>
    simp only [decValL, ← List.append_assoc, List.foldl_append, List.foldl_cons,
      List.foldl_nil] at *
    rw [ih]
    simp [List.length_append, pow_succ]
    ring

theorem decValL_zeros_prefix (k : Nat) (ds : List Char) :
    decValL (List.replicate k '0' ++ ds) = decValL ds := by
  induction k with
  | zero => simp
  | succ k ih =>
    have : List.replicate (k + 1) '0' ++ ds = '0' :: (List.replicate k '0' ++ ds) := by
      simp [List.replicate_succ]
    rw [this]
    have hz : decValL ('0' :: (List.replicate k '0' ++ ds)) =
        decValL (List.replicate k '0' ++ ds) := by
      simp only [decValL, List.foldl_cons]
      congr 1
    rw [hz, ih]

/-! ### Scanning lemmas -/

theorem takeWhile_append_all {p : Char → Bool} (xs ys : List Char)
    (h : ∀ a ∈ xs, p a = true) :
    (xs ++ ys).takeWhile p = xs ++ ys.takeWhile p := by
  induction xs with
  | nil => simp
  | cons c cs ih =>
    have hc : p c = true := h c (by simp)
    simp only [List.cons_append, List.takeWhile_cons, hc, if_true]
    rw [ih fun a ha => h a (by simp [ha])]

theorem dropWhile_append_all {p : Char → Bool} (xs ys : List Char)
    (h : ∀ a ∈ xs, p a = true) :
    (xs ++ ys).dropWhile p = ys.dropWhile p := by
  induction xs with
  | nil => simp
  | cons c cs ih =>
    have hc : p c = true := h c (by simp)
    simp only [List.cons_append, List.dropWhile_cons, hc, if_true]
    exact ih fun a ha => h a (by simp [ha])

theorem takeWhile_cons_false {p : Char → Bool} {c : Char} (xs : List Char)
    (h : p c = false) : (c :: xs).takeWhile p = [] := by
  simp [List.takeWhile_cons, h]

theorem dropWhile_cons_false {p : Char → Bool} {c : Char} (xs : List Char)
    (h : p c = false) : (c :: xs).dropWhile p = c :: xs := by
  simp [List.dropWhile_cons, h]

theorem takeWhile_all {p : Char → Bool} (xs : List Char)
    (h : ∀ a ∈ xs, p a = true) : xs.takeWhile p = xs := by
  have := takeWhile_append_all (p := p) xs [] h
  simpa using this

theorem dropWhile_all {p : Char → Bool} (xs : List Char)
    (h : ∀ a ∈ xs, p a = true) : xs.dropWhile p = [] := by
  have := dropWhile_append_all (p := p) xs [] h
  simpa using this

theorem dropWhile_false_of_all {p : Char → Bool} (xs : List Char)
    (h : ∀ a ∈ xs, p a = false) : xs.dropWhile p = xs := by
  cases xs with
  | nil => rfl
  | cons c cs => exact dropWhile_cons_false cs (h c (by simp))

/-- Stripping whitespace from both ends of a whitespace-free string is the
identity. -/

theorem strip_id (cs : List Char) (h : ∀ c ∈ cs, pyIsSpace c = false) :
    ((cs.dropWhile pyIsSpace).reverse.dropWhile pyIsSpace).reverse = cs := by
  rw [dropWhile_false_of_all cs h,
    dropWhile_false_of_all cs.reverse fun a ha => h a (List.mem_reverse.mp ha),
    List.reverse_reverse]

theorem scanStr_append {q : Char} (v r : List Char) (hv : ∀ c ∈ v, c ≠ q) :
    scanStr q (v ++ q :: r) = some (v, r) := by
  induction v with
  | nil => simp [scanStr]
  | cons c cs ih =>
    have hc : c ≠ q := hv c (by simp)
    have ih2 := ih fun a ha => hv a (by simp [ha])
    simp only [List.cons_append, scanStr, if_neg hc, List.append_eq, ih2]
    rfl

/-! ### Character-class facts about printed floats -/

theorem isDig_not_space {c : Char} (h : isDig c = true) : pyIsSpace c = false := by
  simp only [isDig, Bool.and_eq_true, decide_eq_true_eq] at h
  simp only [pyIsSpace, Bool.or_eq_false_iff, decide_eq_false_iff_not,
    Bool.and_eq_false_iff]
  omega

theorem isDig_not_break {c : Char} (h : isDig c = true) : isPyLineBreak c = false := by
  simp only [isDig, Bool.and_eq_true, decide_eq_true_eq] at h
  simp only [isPyLineBreak, Bool.or_eq_false_iff, decide_eq_false_iff_not,
    Bool.and_eq_false_iff]
  omega

theorem isDig_toNat {c : Char} (h : isDig c = true) :
    48 ≤ c.toNat ∧ c.toNat ≤ 57 := by
  simpa [isDig] using h

theorem isDig_ne {c d : Char} (h : isDig c = true) (hd : isDig d = false) : c ≠ d := by
  intro heq
  subst heq
  rw [h] at hd
  cases hd

theorem toLower_of_isDig {c : Char} (h : isDig c = true) : Char.toLower c = c := by
  have := isDig_toNat h
  unfold Char.toLower
  rw [if_neg]
  intro hcond
  omega

/-- Both digit groups produced by `reprDigits` consist of decimal digits. -/

theorem reprDigits_digits (m : Int) (e : Nat) :
    (∀ c ∈ (reprDigits m e).1, isDig c = true) ∧
    (∀ c ∈ (reprDigits m e).2, isDig c = true) := by
  have hds : ∀ a ∈ natToDecL m.natAbs, isDig a = true := natToDecL_digits _
  have hpad : ∀ a ∈ List.replicate (e + 1 - (natToDecL m.natAbs).length) '0' ++
      natToDecL m.natAbs, isDig a = true := by
    intro a ha
    rcases List.mem_append.mp ha with ha | ha
    · rcases List.eq_of_mem_replicate ha with ⟨_, rfl⟩; decide
    · exact hds a ha
  unfold reprDigits
  by_cases he : e = 0
  · subst he
    refine ⟨by simpa using hds, ?_⟩
    intro c hc
    simp only [if_pos rfl] at hc
    rcases List.mem_singleton.mp hc with rfl
    decide
  · simp only [if_neg he]
    exact ⟨fun c hc => hpad c (List.take_subset _ _ hc),
      fun c hc => hpad c (List.drop_subset _ _ hc)⟩

/-- Every character of a printed float is a digit, a sign, a dot, or one of
the letters of `nan`/`inf`. -/

theorem pyReprFL_chars (f : PyFloat) :
    ∀ c ∈ pyReprFL f, isDig c = true ∨ c = '-' ∨ c = '.' ∨
      c = 'n' ∨ c = 'a' ∨ c = 'i' ∨ c = 'f' := by
  intro c hc
  match f with
  | .nan =>
    simp only [pyReprFL, List.mem_cons, List.not_mem_nil, or_false] at hc
    rcases hc with rfl | rfl | rfl <;> simp
  | .inf =>
    simp only [pyReprFL, List.mem_cons, List.not_mem_nil, or_false] at hc
    rcases hc with rfl | rfl | rfl <;> simp
  | .ninf =>
    simp only [pyReprFL, List.mem_cons, List.not_mem_nil, or_false] at hc
    rcases hc with rfl | rfl | rfl | rfl <;> simp
  | .finite m e =>
    simp only [pyReprFL, List.mem_append, List.mem_cons] at hc
    rcases hc with ((hc | hc) | (hc | hc))
    · right; left
      split at hc
      · exact List.mem_singleton.mp hc
      · cases hc
    · exact Or.inl ((reprDigits_digits m e).1 c hc)
    · right; right; left; exact hc
    · exact Or.inl ((reprDigits_digits m e).2 c hc)

/-! ### Printing floats reads back: `float(str(x)) == x` -/

theorem reprDigits_zero (m : Int) :
    reprDigits m 0 = (natToDecL m.natAbs, ['0']) := by
  simp [reprDigits]

theorem reprDigits_pos (m : Int) {e : Nat} (he : e ≠ 0) :
    (reprDigits m e).1 ≠ [] ∧
    (reprDigits m e).1 ++ (reprDigits m e).2 =
      List.replicate (e + 1 - (natToDecL m.natAbs).length) '0' ++ natToDecL m.natAbs ∧
    (reprDigits m e).2.length = e := by
  have hL : 1 ≤ (natToDecL m.natAbs).length :=
    List.length_pos.mpr (natToDecL_ne_nil _)
  have hlen : (List.replicate (e + 1 - (natToDecL m.natAbs).length) '0' ++
      natToDecL m.natAbs).length =
      (e + 1 - (natToDecL m.natAbs).length) + (natToDecL m.natAbs).length := by
    simp
  have hge : e + 1 ≤ (List.replicate (e + 1 - (natToDecL m.natAbs).length) '0' ++
      natToDecL m.natAbs).length := by
    rw [hlen]; omega
  unfold reprDigits
  simp only [if_neg he]
  refine ⟨?_, List.take_append_drop _ _, ?_⟩
  · intro hnil
    have := congrArg List.length hnil
    simp only [List.length_take, List.length_nil] at this
    omega
  · simp only [List.length_drop]
    omega

theorem reprDigits_fst_ne_nil (m : Int) (e : Nat) : (reprDigits m e).1 ≠ [] := by
  by_cases he : e = 0
  · subst he; rw [reprDigits_zero]; exact natToDecL_ne_nil _
  · exact (reprDigits_pos m he).1

theorem normFN_mul10 (n : Nat) : normFN (n * 10) 1 = (n, 0) := by
  unfold normFN
  simp [Nat.mul_mod_left, Nat.mul_div_cancel, normFN]

theorem normFN_stuck (n : Nat) {e' : Nat} (h : n % 10 ≠ 0) :
    normFN n (e' + 1) = (n, e' + 1) := by
  unfold normFN
  simp [h]

theorem mkFin_eval1 (neg : Bool) (n : Nat) :
    mkFin neg (n * 10) 1 0 = PyFloat.finite (if neg then -(n : Int) else (n : Int)) 0 := by
  unfold mkFin
  have ht : ¬ (0 ≤ (0 : Int) - (1 : Nat)) := by norm_num
  simp only [if_neg ht]
  have htn : (-((0 : Int) - (1 : Nat))).toNat = 1 := by norm_num
  rw [htn, normFN_mul10]

theorem mkFin_eval2 (neg : Bool) (n : Nat) {e' : Nat} (h : n % 10 ≠ 0) :
    mkFin neg n (e' + 1) 0 =
      PyFloat.finite (if neg then -(n : Int) else (n : Int)) (e' + 1) := by
  unfold mkFin
  have ht : ¬ (0 ≤ (0 : Int) - ((e' + 1 : Nat) : Int)) := by
    push_cast; omega
  simp only [if_neg ht]
  have htn : (-((0 : Int) - ((e' + 1 : Nat) : Int))).toNat = e' + 1 := by
    push_cast; omega
  rw [htn, normFN_stuck n h]

theorem fosSign_digit {c : Char} (l : List Char) (h : isDig c = true) :
    fosSign (c :: l) = (false, c :: l) := by
  have h1 : c ≠ '-' := isDig_ne h (by decide)
  have h2 : c ≠ '+' := isDig_ne h (by decide)
  unfold fosSign
  rw [if_neg, if_neg]
  · simp only [List.head?_cons, beq_iff_eq, Option.some.injEq]
    exact h2
  · simp only [List.head?_cons, beq_iff_eq, Option.some.injEq]
    exact h1

theorem fosSign_minus (l : List Char) : fosSign ('-' :: l) = (true, l) := by
  unfold fosSign
  rw [if_pos] <;> simp

theorem map_toLower_digit_head {c : Char} (l : List Char) (h : isDig c = true)
    (w : List Char) (hw : w.head? = some 'n' ∨ w.head? = some 'i') :
    (c :: l).map Char.toLower ≠ w := by
  intro heq
  have hh := congrArg List.head? heq
  simp only [List.head?_map, List.head?_cons] at hh
  rw [show Option.map Char.toLower (some c) = some (Char.toLower c) from rfl,
    toLower_of_isDig h] at hh
  rcases hw with hw | hw <;> rw [hw] at hh <;>
    (have hc := Option.some.inj hh; subst hc; exact absurd h (by decide))

theorem fosDigits_shape (neg : Bool) (ip fp : List Char) (hip : ip ≠ [])
    (hipd : ∀ c ∈ ip, isDig c = true) (hfpd : ∀ c ∈ fp, isDig c = true) :
    fosDigits neg (ip ++ '.' :: fp) =
      some (mkFin neg (decValL (ip ++ fp)) fp.length 0) := by
  unfold fosDigits
  have h1 : (ip ++ '.' :: fp).takeWhile isDig = ip := by
    rw [takeWhile_append_all ip _ hipd,
      takeWhile_cons_false _ (by decide : isDig '.' = false), List.append_nil]
  have h2 : (ip ++ '.' :: fp).dropWhile isDig = '.' :: fp := by
    rw [dropWhile_append_all ip _ hipd,
      dropWhile_cons_false _ (by decide : isDig '.' = false)]
  rw [h1, h2]
  simp only [List.head?_cons, List.tail_cons, beq_self_eq_true, if_true]
  rw [takeWhile_all fp hfpd, dropWhile_all fp hfpd]
  unfold fosAfterDot
  rw [if_neg]
  simp only [Bool.and_eq_true, List.isEmpty_eq_true]
  intro hcl
  exact hip hcl.1

/-- Printing a canonical (finite, lowest-decimal-form) float and reading it
back with `float()` recovers exactly the same value. -/

theorem floatOfString_pyRepr (x : PyFloat) (hx : x.isCanonF = true) :
    floatOfString (pyRepr x) = some x := by
  match x with
  | .nan => simp [PyFloat.isCanonF] at hx
  | .inf => simp [PyFloat.isCanonF] at hx
  | .ninf => simp [PyFloat.isCanonF] at hx
  | .finite m e =>
    have hnospace : ∀ c ∈ pyReprFL (.finite m e), pyIsSpace c = false := by
      intro c hc
      rcases pyReprFL_chars _ c hc with h | h | h | h | h | h | h
      · exact isDig_not_space h
      all_goals (subst h; decide)
    show floatOfStringL (pyRepr (.finite m e)).toList = some (.finite m e)
    have htl : (pyRepr (.finite m e)).toList = pyReprFL (.finite m e) := rfl
    unfold floatOfStringL
    rw [htl, strip_id _ hnospace]
    obtain ⟨c0, ip', hip⟩ := List.exists_cons_of_ne_nil (reprDigits_fst_ne_nil m e)
    have hipd := (reprDigits_digits m e).1
    have hfpd := (reprDigits_digits m e).2
    have hc0 : isDig c0 = true := hipd c0 (by rw [hip]; simp)
    have hshape :
        fosDigits false ((reprDigits m e).1 ++ '.' :: (reprDigits m e).2) =
          some (mkFin false (decValL ((reprDigits m e).1 ++ (reprDigits m e).2))
            (reprDigits m e).2.length 0) :=
      fosDigits_shape false _ _ (reprDigits_fst_ne_nil m e) hipd hfpd
    have hshapeT :
        fosDigits true ((reprDigits m e).1 ++ '.' :: (reprDigits m e).2) =
          some (mkFin true (decValL ((reprDigits m e).1 ++ (reprDigits m e).2))
            (reprDigits m e).2.length 0) :=
      fosDigits_shape true _ _ (reprDigits_fst_ne_nil m e) hipd hfpd
    have hcons : (reprDigits m e).1 ++ '.' :: (reprDigits m e).2 =
        c0 :: (ip' ++ '.' :: (reprDigits m e).2) := by
      rw [hip]; simp
    have hval : decValL ((reprDigits m e).1 ++ (reprDigits m e).2) =
        if e = 0 then m.natAbs * 10 else m.natAbs := by
      by_cases he : e = 0
      · subst he
        rw [reprDigits_zero]
        simp only [if_pos rfl]
        rw [decValL_append, decValL_natToDecL,
          show decValL ['0'] = 0 from by decide]
        simp
      · rw [if_neg he, (reprDigits_pos m he).2.1, decValL_zeros_prefix,
          decValL_natToDecL]
    have hlen2 : (reprDigits m e).2.length = if e = 0 then 1 else e := by
      by_cases he : e = 0
      · subst he; rw [reprDigits_zero]; simp
      · rw [if_neg he, (reprDigits_pos m he).2.2]
    have hfinish : ∀ neg : Bool,
        mkFin neg (decValL ((reprDigits m e).1 ++ (reprDigits m e).2))
          (reprDigits m e).2.length 0 =
        PyFloat.finite (if neg then -(m.natAbs : Int) else (m.natAbs : Int)) e := by
      intro neg
      rw [hval, hlen2]
      by_cases he : e = 0
      · subst he; simp only [if_pos rfl]; exact mkFin_eval1 neg m.natAbs
      · obtain ⟨e', rfl⟩ := Nat.exists_eq_succ_of_ne_zero he
        simp only [if_neg he]
        have hmod : m.natAbs % 10 ≠ 0 := by
          have : PyFloat.isCanonF (.finite m (e' + 1)) = true := hx
          simpa [PyFloat.isCanonF] using this
        exact mkFin_eval2 neg m.natAbs hmod
    by_cases hm : m < 0
    · have hrepr : pyReprFL (.finite m e) =
          '-' :: ((reprDigits m e).1 ++ '.' :: (reprDigits m e).2) := by
        simp [pyReprFL, if_pos hm]
      rw [hrepr]
      unfold floatOfStringCore
      rw [fosSign_minus]
      rw [if_neg, if_neg, if_neg]
      · rw [hshapeT, hfinish true]
        have : -(m.natAbs : Int) = m := by omega
        rw [if_pos rfl, this]
      all_goals
        (rw [hcons]
         exact map_toLower_digit_head _ hc0 _ (by simp))
    · have hrepr : pyReprFL (.finite m e) =
          (reprDigits m e).1 ++ '.' :: (reprDigits m e).2 := by
        simp [pyReprFL, if_neg hm]
      rw [hrepr]
      unfold floatOfStringCore
      rw [hcons, fosSign_digit _ hc0]
      rw [if_neg, if_neg, if_neg]
      · rw [← hcons, hshape, hfinish false]
        have : (m.natAbs : Int) = m := by omega
        rw [if_neg (by simp), this]
      all_goals exact map_toLower_digit_head _ hc0 _ (by simp)

/-- C1: the claimed round trip
`parse_anyanyscript (format_anyscript_pointcloud points) = points` fails:
the formatter emits lines with no leading whitespace, while the matcher's
regex starts with `\s+` and so matches no formatted line — the parse of the
formatted one-point set is the empty point set, not the original. -/

theorem c1_pointcloud_roundtrip_breaks :
    format_anyscript_pointcloud c1Points =
      some ("\x7b1.0, 2.0, 3.0\x7d // P1 \x0a") ∧
    parse_anyanyscript ("\x7b1.0, 2.0, 3.0\x7d // P1 \x0a") = [] ∧
    c1Points ≠ [] :=
  ⟨rfl, rfl, by simp [c1Points]⟩

/-- C2 counterexample: for a two-point set, `format_ppfile` emits two root
`<point />` elements, which `parse_pp_file` rejects as malformed XML, so
the round trip raises a `FormatError` instead of returning the points. -/

theorem c2_counterexample :
    parse_pp_file (format_ppfile c2Points) =
      Except.error (PPErr.formatError
        ("Could not parse XML file: junk after document element")) ∧
    parse_pp_file (format_ppfile c2Points) ≠ Except.ok c2Points := by
  constructor
  · rfl
  · intro h
    rw [show parse_pp_file (format_ppfile c2Points) =
      Except.error (PPErr.formatError
        ("Could not parse XML file: junk after document element")) from rfl] at h
    exact Except.noConfusion h

/-- C3 counterexample: a line of exactly the claimed shape but with zero
leading whitespace — brace group, trailing comma, `//` comment — is not
matched (the regex requires `\s+`), and contributes no entry. -/

theorem c3_counterexample :
    ANYSCRIPT_POINT_LINE_match ("\x7b1.0, 2.0, 3.0\x7d, // P") = Option.none ∧
    parse_anyanyscript ("\x7b1.0, 2.0, 3.0\x7d, // P") = [] :=
  ⟨rfl, rfl⟩

/-- C4 counterexample: a well-formed XML input whose `point` element lacks
the `x` attribute makes `parse_pp_file` raise a `KeyError` (uncaught, and
not the `FormatError` of the claim) instead of returning a point set. -/

theorem c4_counterexample :
    exceptIsOk (xmlFromString ("<point y=\x221\x22 z=\x222\x22 name=\x22Q\x22/>")) = true ∧
    parse_pp_file ("<point y=\x221\x22 z=\x222\x22 name=\x22Q\x22/>") =
      Except.error (PPErr.keyError ("x")) :=
  ⟨rfl, rfl⟩

/-- C6: parsing the value text `{1.0, nan, 3.0}` yields a three-element
all-numeric array whose first element is 1.0, whose third is 3.0, and whose
second satisfies the NaN predicate; no error is raised and no string
element remains. -/

theorem c6_nan_literal :
    _parse_anyscript ("\x7b1.0, nan, 3.0\x7d") =
      some (PyVal.list [PyVal.float (PyFloat.finite 1 0), PyVal.float PyFloat.nan,
        PyVal.float (PyFloat.finite 3 0)]) ∧
    allNumeric 2 (PyVal.list [PyVal.float (PyFloat.finite 1 0),
      PyVal.float PyFloat.nan, PyVal.float (PyFloat.finite 3 0)]) = true ∧
    [PyVal.float (PyFloat.finite 1 0), PyVal.float PyFloat.nan,
      PyVal.float (PyFloat.finite 3 0)].length = 3 ∧
    PyFloat.isNanF PyFloat.nan = true ∧
    PyFloat.isNanF (PyFloat.finite 1 0) = false ∧
    PyFloat.isNanF (PyFloat.finite 3 0) = false :=
  ⟨rfl, rfl, rfl, rfl, rfl, rfl⟩

/-- C7: parsing the value text `[...]` yields the opaque placeholder string
`"..."` and does not raise an error. -/

theorem c7_ellipsis_placeholder :
    _parse_anyscript ("[...]") = some (PyVal.str ("...")) :=
  rfl

/-- C10: on the empty point set the pointcloud formatter does not return a
string — the error raised by `signal_last`'s initial `next` escapes — and
on every non-empty point set it returns normally. -/

theorem c10_formatter_needs_nonempty :
    format_anyscript_pointcloud ([] : List (String × Vec3)) = Option.none ∧
    signal_last ([] : List (String × Vec3)) = Option.none ∧
    (∀ (p : String × Vec3) (ps : List (String × Vec3)),
      (format_anyscript_pointcloud (p :: ps)).isSome = true) :=
  ⟨rfl, rfl, fun _ _ => rfl⟩

/-- C8 counterexample: the sanitiser keeps the non-ASCII letter `é`
(Python's `isalnum` is Unicode-aware), whereas the claim demands that every
character other than an ASCII letter or digit be replaced by `_`. -/

theorem c8_counterexample :
    sanitizeName ("é") = ("é") ∧ sanitizeName ("é") ≠ ("_") ∧
    asciiAlnum 'é' = false :=
  ⟨rfl, by decide, rfl⟩

/-- C8 amended: the sanitiser maps every character independently; on ASCII
characters it keeps exactly the letters and digits and replaces the rest by
underscores (non-ASCII Unicode alphanumerics are also kept); it is
idempotent on every input. -/

theorem c8_sanitizer_amended :
    (∀ s : String, sanitizeName s =
      String.mk (s.toList.map fun c => if pyIsAlnum c then c else '_')) ∧
    (∀ c : Char, c.toNat < 128 → pyIsAlnum c = asciiAlnum c) ∧
    (∀ s : String, sanitizeName (sanitizeName s) = sanitizeName s) := by
  refine ⟨fun s => rfl, fun c h => pyIsAlnum_ascii c h, fun s => ?_⟩
  unfold sanitizeName
  rw [show (String.mk (s.toList.map fun c => if pyIsAlnum c then c else '_')).toList
      = s.toList.map fun c => if pyIsAlnum c then c else '_' from rfl,
    List.map_map]
  refine congrArg String.mk (List.map_congr_left ?_)
  intro c _
  by_cases h : pyIsAlnum c = true
  · simp [Function.comp, h]
  · simp [Function.comp, h, pyIsAlnum_underscore]

/-- Witness for the amended C8 theorem at the concrete character `!`. -/

theorem c8_sanitizer_amended_witness :
    ('!').toNat < 128 ∧ pyIsAlnum '!' = asciiAlnum '!' :=
  ⟨by decide, c8_sanitizer_amended.2.1 '!' (by decide)⟩

/-! ### The line matcher on lines of the documented shape -/

theorem pySplitlinesL_nobreak (l : List Char) :
    ∀ (f : Nat) (acc : List Char), l.length < f → acc.reverse ++ l ≠ [] →
      (∀ c ∈ l, isPyLineBreak c = false) →
      pySplitlinesL f acc l = [String.mk (acc.reverse ++ l)] := by
  induction l with
  | nil =>
    intro f acc hf hne _
    obtain ⟨f', rfl⟩ : ∃ f', f = f' + 1 := ⟨f - 1, by omega⟩
    have hacc : acc ≠ [] := by
      intro h; subst h; simp at hne
    unfold pySplitlinesL
    rw [if_neg (by simpa [List.isEmpty_eq_true] using hacc)]
    simp
  | cons c rest ih =>
    intro f acc hf hbr0 hbr
    obtain ⟨f', rfl⟩ : ∃ f', f = f' + 1 := ⟨f - 1, by omega⟩
    have hc : isPyLineBreak c = false := hbr c (by simp)
    have hcr : c ≠ '\x0d' := by
      intro h; subst h; exact absurd hc (by decide)
    unfold pySplitlinesL
    rw [if_neg hcr, if_neg (by simp [hc])]
    have := ih f' (c :: acc) (by simp at hf; omega) (by simp)
      fun a ha => hbr a (by simp [ha])
    rw [this]
    simp

/-- `str.splitlines` of one non-empty line without boundary characters is
that single line. -/

theorem pySplitlines_single (l : List Char) (hne : l ≠ [])
    (h : ∀ c ∈ l, isPyLineBreak c = false) :
    pySplitlines (String.mk l) = [String.mk l] := by
  unfold pySplitlines
  have := pySplitlinesL_nobreak l (l.length + 1) [] (by omega)
    (by simpa using hne) h
  simpa using this

theorem splitLastBrace_append (inner after : List Char)
    (h : ∀ c ∈ after, c ≠ '\x7d') :
    splitLastBrace (inner ++ '\x7d' :: after) = some (inner, after) := by
  unfold splitLastBrace
  have hrev : (inner ++ '\x7d' :: after).reverse =
      after.reverse ++ '\x7d' :: inner.reverse := by
    simp
  have hall : ∀ c ∈ after.reverse, (!(decide (c = '\x7d'))) = true := by
    intro c hcm
    simpa using h c (List.mem_reverse.mp hcm)
  rw [hrev, takeWhile_append_all _ _ hall, takeWhile_cons_false _ (by simp),
    List.append_nil, dropWhile_append_all _ _ hall,
    dropWhile_cons_false _ (by simp)]
  show some (inner.reverse.reverse, after.reverse.reverse) = some (inner, after)
  simp

theorem dropWhile_space_slash (name : List Char) :
    List.dropWhile pyIsSpace (' ' :: '/' :: name) = '/' :: name := by
  rw [List.dropWhile_cons, if_pos (by decide),
    dropWhile_cons_false _ (by decide : pyIsSpace '/' = false)]

/-- The comment tail of `[,] · ` ``// name`` is exactly `name`, when `name`
starts with a word character. -/

theorem commentTail_shape (c0 : Char) (name' : List Char) (comma : Bool)
    (hw0 : pyIsWord c0 = true) :
    commentTail ((if comma then [','] else []) ++
      ' ' :: '/' :: '/' :: ' ' :: (c0 :: name')) = c0 :: name' := by
  have hword : List.dropWhile (fun c => !(pyIsWord c)) ('/' :: ' ' :: c0 :: name') =
      c0 :: name' := by
    rw [List.dropWhile_cons, if_pos (by decide),
      List.dropWhile_cons, if_pos (by decide),
      dropWhile_cons_false _ (by simp [hw0])]
  cases comma with
  | true =>
    show commentTail (',' :: ' ' :: '/' :: '/' :: ' ' :: (c0 :: name')) = _
    unfold commentTail
    rw [dropWhile_cons_false _ (by decide : pyIsSpace ',' = false)]
    rw [show dropComma (',' :: ' ' :: '/' :: '/' :: ' ' :: (c0 :: name')) =
        ' ' :: '/' :: '/' :: ' ' :: (c0 :: name') from rfl]
    rw [dropWhile_space_slash]
    rw [show dropSlash ('/' :: '/' :: ' ' :: (c0 :: name')) =
        '/' :: ' ' :: (c0 :: name') from rfl]
    exact hword
  | false =>
    show commentTail (' ' :: '/' :: '/' :: ' ' :: (c0 :: name')) = _
    unfold commentTail
    rw [dropWhile_space_slash]
    rw [show dropComma ('/' :: '/' :: ' ' :: (c0 :: name')) =
        '/' :: '/' :: ' ' :: (c0 :: name') from rfl]
    rw [dropWhile_cons_false _ (by decide : pyIsSpace '/' = false)]
    rw [show dropSlash ('/' :: '/' :: ' ' :: (c0 :: name')) =
        '/' :: ' ' :: (c0 :: name') from rfl]
    exact hword

/-- Matching a line of the shape `ws{inner}[,] // name` against the
pointcloud regex: the value group and the comment text are extracted,
provided the line starts with at least one whitespace character and the
comment text starts with a word character. -/

theorem anyscript_match_shape (ws inner name : List Char) (comma : Bool)
    (hws0 : ws ≠ []) (hws : ∀ c ∈ ws, pyIsSpace c = true)
    (hinner0 : inner ≠ [])
    (hname0 : name ≠ []) (hnameH : name.head?.all pyIsWord = true)
    (hnameCl : ∀ c ∈ name, c ≠ '\x7d') :
    anyscriptPointLineMatchL (ws ++ '\x7b' :: (inner ++ '\x7d' ::
      ((if comma then [','] else []) ++ ' ' :: '/' :: '/' :: ' ' :: name))) =
    some ('\x7b' :: (inner ++ ['\x7d']), name) := by
  obtain ⟨c0, name', rfl⟩ := List.exists_cons_of_ne_nil hname0
  have hw0 : pyIsWord c0 = true := by simpa [Option.all] using hnameH
  unfold anyscriptPointLineMatchL
  rw [takeWhile_append_all ws _ hws,
    takeWhile_cons_false _ (by decide : pyIsSpace '\x7b' = false),
    List.append_nil,
    dropWhile_append_all ws _ hws,
    dropWhile_cons_false _ (by decide : pyIsSpace '\x7b' = false)]
  rw [if_neg (by simpa [List.isEmpty_eq_true] using hws0)]
  have hafterCl : ∀ c ∈ (if comma then [','] else []) ++
      ' ' :: '/' :: '/' :: ' ' :: (c0 :: name'), c ≠ '\x7d' := by
    intro c hcm
    rcases List.mem_append.mp hcm with hcm | hcm
    · split at hcm
      · rcases List.mem_singleton.mp hcm with rfl; decide
      · cases hcm
    · simp only [List.mem_cons] at hcm
      rcases hcm with rfl | rfl | rfl | rfl | hcm
      · decide
      · decide
      · decide
      · decide
      · exact hnameCl c (by simp [hcm])
  rw [show anyscriptGroupMatch ('\x7b' :: (inner ++ '\x7d' ::
      ((if comma then [','] else []) ++ ' ' :: '/' :: '/' :: ' ' :: (c0 :: name')))) =
    anyscriptGroupMatch2 (splitLastBrace (inner ++ '\x7d' ::
      ((if comma then [','] else []) ++ ' ' :: '/' :: '/' :: ' ' :: (c0 :: name'))))
    from rfl]
  rw [splitLastBrace_append _ _ hafterCl]
  show (if inner.isEmpty then Option.none
    else some ('\x7b' :: (inner ++ ['\x7d']),
      commentTail ((if comma then [','] else []) ++
        ' ' :: '/' :: '/' :: ' ' :: (c0 :: name')))) = _
  rw [if_neg (by simpa [List.isEmpty_eq_true] using hinner0),
    commentTail_shape c0 name' comma hw0]

/-- C3 amended: for every input line consisting of at least one leading
whitespace character (here spaces/tabs, so the line survives `splitlines`
unsplit), a brace-delimited value group, an optional trailing comma, and a
`//`-introduced comment whose text starts with a word character, the line
matcher matches the line and inserts an entry mapping the comment text to
the value parsed by `_parse_anyscript`.  With zero leading whitespace the
line is skipped instead (see the counterexample). -/

theorem c3_matcher_amended (ws inner name : List Char) (comma : Bool) (v : PyVal)
    (hws0 : ws ≠ []) (hws : ∀ c ∈ ws, c = ' ' ∨ c = '\x09')
    (hinner0 : inner ≠ []) (hinnerBr : ∀ c ∈ inner, isPyLineBreak c = false)
    (hname0 : name ≠ []) (hnameH : name.head?.all pyIsWord = true)
    (hnameCl : ∀ c ∈ name, c ≠ '\x7d' ∧ isPyLineBreak c = false)
    (hv : _parse_anyscript (String.mk ('\x7b' :: (inner ++ ['\x7d']))) = some v) :
    parse_anyanyscript (String.mk (ws ++ '\x7b' :: (inner ++ '\x7d' ::
      ((if comma then [','] else []) ++ ' ' :: '/' :: '/' :: ' ' :: name)))) =
    [(String.mk name, v)] := by
  set L := ws ++ '\x7b' :: (inner ++ '\x7d' ::
    ((if comma then [','] else []) ++ ' ' :: '/' :: '/' :: ' ' :: name)) with hL
  have hwsSp : ∀ c ∈ ws, pyIsSpace c = true := by
    intro c hc
    rcases hws c hc with rfl | rfl <;> decide
  have hbr : ∀ c ∈ L, isPyLineBreak c = false := by
    intro c hc
    rw [hL] at hc
    rcases List.mem_append.mp hc with hc | hc
    · rcases hws c hc with rfl | rfl <;> decide
    · rcases List.mem_cons.mp hc with rfl | hc
      · decide
      rcases List.mem_append.mp hc with hc | hc
      · exact hinnerBr c hc
      rcases List.mem_cons.mp hc with rfl | hc
      · decide
      rcases List.mem_append.mp hc with hc | hc
      · rcases comma with _ | _
        · simp at hc
        · rcases List.mem_singleton.mp (by simpa using hc) with rfl; decide
      rcases List.mem_cons.mp hc with rfl | hc
      · decide
      rcases List.mem_cons.mp hc with rfl | hc
      · decide
      rcases List.mem_cons.mp hc with rfl | hc
      · decide
      rcases List.mem_cons.mp hc with rfl | hc
      · decide
      · exact (hnameCl c hc).2
  have hne : L ≠ [] := by
    rw [hL]
    rcases ws with _ | ⟨w, ws'⟩
    · exact absurd rfl hws0
    · simp
  unfold parse_anyanyscript
  rw [pySplitlines_single L hne hbr]
  simp only [List.foldl_cons, List.foldl_nil]
  have hmatch : ANYSCRIPT_POINT_LINE_match (String.mk L) =
      some (String.mk ('\x7b' :: (inner ++ ['\x7d'])), String.mk name) := by
    unfold ANYSCRIPT_POINT_LINE_match
    rw [show (String.mk L).toList = L from rfl, hL,
      anyscript_match_shape ws inner name comma hws0 hwsSp hinner0 hname0 hnameH
        (fun c hc => (hnameCl c hc).1)]
    rfl
  rw [hmatch]
  show (match _parse_anyscript (String.mk ('\x7b' :: (inner ++ ['\x7d']))) with
    | some v2 => dictInsert (String.mk name) v2 []
    | Option.none => ([] : List (String × PyVal))) = [(String.mk name, v)]
  rw [hv]
  rfl

/-- Witness for the amended C3 theorem: a line with one leading space, the
value group `{1.0, 2.0, 3.0}`, a trailing comma and the comment `P` parses
to the single entry `P ↦ [1.0, 2.0, 3.0]`. -/

theorem c3_matcher_amended_witness :
    parse_anyanyscript (" \x7b1.0, 2.0, 3.0\x7d, // P") =
      [(("P"), PyVal.list [PyVal.float (PyFloat.finite 1 0),
        PyVal.float (PyFloat.finite 2 0), PyVal.float (PyFloat.finite 3 0)])] :=
  c3_matcher_amended [' '] (("1.0, 2.0, 3.0").toList) ['P'] true
    (PyVal.list [PyVal.float (PyFloat.finite 1 0),
      PyVal.float (PyFloat.finite 2 0), PyVal.float (PyFloat.finite 3 0)])
    (by decide) (by decide) (by decide) (by decide)
    (by decide) (by decide) (by decide) rfl

theorem enumFrom_length {α : Type} (l : List α) :
    ∀ i : Nat, (enumFrom i l).length = l.length := by
  induction l with
  | nil => intro i; rfl
  | cons x xs ih => intro i; simp [enumFrom, ih]

theorem strToList_append (a b : String) :
    (a ++ b).toList = a.toList ++ b.toList := by
  cases a; cases b; rfl

theorem strMk_toList (s : String) : String.mk s.toList = s := by
  cases s; rfl

theorem strJoin_toList (ls : List String) :
    (String.join ls).toList = (ls.map String.toList).flatten := by
  have key : ∀ (ls : List String) (a : String),
      (List.foldl (fun r s => r ++ s) a ls).toList =
        a.toList ++ (ls.map String.toList).flatten := by
    intro ls
    induction ls with
    | nil => intro a; simp
    | cons s rest ih =>
      intro a
      simp only [List.foldl_cons, List.map_cons, List.flatten_cons]
      rw [ih (a ++ s), strToList_append, List.append_assoc]
  have := key ls ("")
  simpa [String.join] using this

theorem pySplitlinesL_fuelStable :
    ∀ (f1 : Nat) (l acc : List Char) (f2 : Nat),
      l.length < f1 → l.length < f2 →
      pySplitlinesL f1 acc l = pySplitlinesL f2 acc l := by
  intro f1
  induction f1 with
  | zero => intro l acc f2 h1 _; omega
  | succ f1 ih =>
    intro l acc f2 h1 h2
    obtain ⟨f2', rfl⟩ : ∃ k, f2 = k + 1 := ⟨f2 - 1, by omega⟩
    cases l with
    | nil => rfl
    | cons c rest =>
      simp only [List.length_cons] at h1 h2
      unfold pySplitlinesL
      by_cases hcr : c = '\x0d'
      · subst hcr
        have htl : (if rest.head? == some '\x0a' then rest.tail else rest).length ≤
            rest.length := by
          split
          · rw [List.length_tail]; omega
          · exact Nat.le_refl _
        rw [ih _ [] f2' (by omega) (by omega)]
        simp
      · simp only [if_neg hcr]
        by_cases hbr : isPyLineBreak c = true
        · simp only [hbr, if_true]
          rw [ih rest [] f2' (by omega) (by omega)]
        · simp only [Bool.not_eq_true] at hbr
          simp only [hbr, Bool.false_eq_true, if_false]
          rw [ih rest (c :: acc) f2' (by omega) (by omega)]

theorem pySplitlinesL_line (l : List Char) :
    ∀ (acc rest : List Char) (f : Nat),
      l.length + rest.length + 2 ≤ f →
      (∀ c ∈ l, isPyLineBreak c = false) →
      pySplitlinesL f acc (l ++ '\x0a' :: rest) =
        String.mk (acc.reverse ++ l) :: pySplitlinesL (rest.length + 1) [] rest := by
  induction l with
  | nil =>
    intro acc rest f hf hbr
    obtain ⟨f', rfl⟩ : ∃ k, f = k + 1 := ⟨f - 1, by omega⟩
    simp only [List.length_nil] at hf
    generalize hR : pySplitlinesL (rest.length + 1) [] rest = R
    simp only [List.nil_append]
    unfold pySplitlinesL
    rw [if_neg (by decide : ¬ ('\x0a' : Char) = '\x0d'),
      if_pos (by decide : isPyLineBreak '\x0a' = true)]
    rw [pySplitlinesL_fuelStable f' rest [] (rest.length + 1)
      (by omega) (by omega), hR]
    simp
  | cons c l' ih =>
    intro acc rest f hf hbr
    obtain ⟨f', rfl⟩ : ∃ k, f = k + 1 := ⟨f - 1, by omega⟩
    simp only [List.length_cons] at hf
    have hc : isPyLineBreak c = false := hbr c (by simp)
    have hcr : c ≠ '\x0d' := by
      intro h; subst h; exact absurd hc (by decide)
    generalize hR : pySplitlinesL (rest.length + 1) [] rest = R
    simp only [List.cons_append]
    unfold pySplitlinesL
    rw [if_neg hcr, if_neg (by simp [hc])]
    rw [ih (c :: acc) rest f' (by omega)
      (fun a ha => hbr a (by simp [ha])), hR]
    simp

theorem pySplitlinesL_joined (ls : List (List Char)) :
    ∀ f : Nat, ((ls.map fun l => l ++ ['\x0a']).flatten).length < f →
      (∀ l ∈ ls, ∀ c ∈ l, isPyLineBreak c = false) →
      pySplitlinesL f [] (ls.map fun l => l ++ ['\x0a']).flatten =
        ls.map String.mk := by
  induction ls with
  | nil =>
    intro f _ _
    cases f <;> rfl
  | cons l ls' ih =>
    intro f hf hbr
    simp only [List.map_cons, List.flatten_cons] at hf ⊢
    have hassoc : (l ++ ['\x0a']) ++ (ls'.map fun l => l ++ ['\x0a']).flatten =
        l ++ '\x0a' :: (ls'.map fun l => l ++ ['\x0a']).flatten := by
      simp
    rw [hassoc]
    simp only [List.length_append, List.length_cons] at hf
    rw [pySplitlinesL_line l [] _ f (by simp at hf ⊢; omega)
      (hbr l (by simp))]
    rw [ih _ (by omega) fun a ha => hbr a (by simp [ha])]
    simp

theorem pyRepr_nobreak (f : PyFloat) :
    ∀ c ∈ (pyRepr f).toList, isPyLineBreak c = false := by
  intro c hc
  have hc2 : c ∈ pyReprFL f := hc
  rcases pyReprFL_chars f c hc2 with h | h | h | h | h | h | h
  · exact isDig_not_break h
  all_goals (subst h; decide)

theorem sanitizeName_nobreak (nm : String) :
    ∀ c ∈ (sanitizeName nm).toList, isPyLineBreak c = false := by
  intro c hc
  have hc2 : c ∈ nm.toList.map fun c => if pyIsAlnum c then c else '_' := hc
  obtain ⟨d, _, hd⟩ := List.mem_map.mp hc2
  by_cases hal : pyIsAlnum d = true
  · rw [if_pos hal] at hd
    subst hd
    exact pyIsAlnum_not_break d hal
  · rw [if_neg hal] at hd
    subst hd
    decide

theorem coordBody_nobreak (v : Vec3) :
    ∀ c ∈ (coordBody v).toList, isPyLineBreak c = false := by
  intro c hc
  unfold coordBody at hc
  simp only [strToList_append, List.mem_append] at hc
  have hcomma : c ∈ (", ").toList → isPyLineBreak c = false := by
    intro hm
    rw [show (", ").toList = [',', ' '] from rfl] at hm
    rcases List.mem_cons.mp hm with rfl | hm
    · decide
    · rcases List.mem_singleton.mp hm with rfl; decide
  rcases hc with (((hc | hc) | hc) | hc) | hc
  · exact pyRepr_nobreak _ c hc
  · exact hcomma hc
  · exact pyRepr_nobreak _ c hc
  · exact hcomma hc
  · exact pyRepr_nobreak _ c hc

theorem pointcloudLineCore_nobreak (b : Bool) (nm : String) (v : Vec3) :
    ∀ c ∈ (pointcloudLineCore b nm v).toList, isPyLineBreak c = false := by
  intro c hc
  unfold pointcloudLineCore at hc
  simp only [strToList_append, List.mem_append] at hc
  rcases hc with ((((((hc | hc) | hc) | hc) | hc) | hc) | hc)
  · rw [show ("\x7b").toList = ['\x7b'] from rfl] at hc
    rcases List.mem_singleton.mp hc with rfl; decide
  · exact coordBody_nobreak v c hc
  · rw [show ("\x7d").toList = ['\x7d'] from rfl] at hc
    rcases List.mem_singleton.mp hc with rfl; decide
  · split at hc
    · rw [show ("").toList = ([] : List Char) from rfl] at hc
      cases hc
    · rw [show (",").toList = [','] from rfl] at hc
      rcases List.mem_singleton.mp hc with rfl; decide
  · rw [show (" // ").toList = [' ', '/', '/', ' '] from rfl] at hc
    simp only [List.mem_cons, List.not_mem_nil, or_false] at hc
    rcases hc with rfl | rfl | rfl | rfl <;> decide
  · exact sanitizeName_nobreak nm c hc
  · rw [show (" ").toList = [' '] from rfl] at hc
    rcases List.mem_singleton.mp hc with rfl; decide

theorem signal_last_aux_length {α : Type} (xs : List α) :
    ∀ cur : α, (signal_last_aux cur xs).length = xs.length + 1 := by
  induction xs with
  | nil => intro cur; rfl
  | cons v rest ih => intro cur; simp [signal_last_aux, ih]

theorem signal_last_aux_lines (xs : List (String × Vec3)) :
    ∀ (cur : String × Vec3) (i0 N : Nat), N = i0 + xs.length + 1 →
      (signal_last_aux cur xs).map (fun q => pointcloudLineCore q.1 q.2.1 q.2.2) =
      (enumFrom i0 (cur :: xs)).map (fun q =>
        ("\x7b") ++ coordBody q.2.2 ++ ("\x7d") ++
          (if q.1 + 1 < N then (",") else ("")) ++ (" // ") ++
          sanitizeName q.2.1 ++ (" ")) := by
  induction xs with
  | nil =>
    intro cur i0 N hN
    subst hN
    simp only [signal_last_aux, enumFrom, List.map_cons, List.map_nil,
      List.length_nil]
    rw [if_neg (by omega)]
    unfold pointcloudLineCore
    rw [if_pos rfl]
  | cons v rest ih =>
    intro cur i0 N hN
    subst hN
    simp only [signal_last_aux, enumFrom, List.map_cons, List.length_cons]
    congr 1
    · unfold pointcloudLineCore
      rw [if_neg (by simp), if_pos (by omega)]
    · rw [ih v (i0 + 1) (i0 + (rest.length + 1) + 1) (by omega)]
      simp only [enumFrom, List.map_cons]

/-- C9: for every non-empty point set the pointcloud output splits into
exactly one line per point; line `i` is `{x, y, z}`, then a comma exactly
when `i` is not the last index, then ` // `, the sanitised name and a
space. -/

theorem c9_lines_and_trailing_comma (ps : List (String × Vec3)) (h : ps ≠ []) :
    ∃ out, format_anyscript_pointcloud ps = some out ∧
      (pySplitlines out).length = ps.length ∧
      pySplitlines out = (enumFrom 0 ps).map (fun q =>
        ("\x7b") ++ coordBody q.2.2 ++ ("\x7d") ++
          (if q.1 + 1 < ps.length then (",") else ("")) ++ (" // ") ++
          sanitizeName q.2.1 ++ (" ")) := by
  obtain ⟨p, rest, rfl⟩ := List.exists_cons_of_ne_nil h
  have hfmt : format_anyscript_pointcloud (p :: rest) =
      some (String.join ((signal_last_aux p rest).map fun q =>
        pointcloudLine q.1 q.2.1 q.2.2)) := rfl
  refine ⟨String.join ((signal_last_aux p rest).map fun q =>
    pointcloudLine q.1 q.2.1 q.2.2), ?_, ?_⟩
  · exact hfmt
  have hbrs : ∀ l ∈ ((signal_last_aux p rest).map fun q =>
      (pointcloudLineCore q.1 q.2.1 q.2.2).toList), ∀ c ∈ l,
      isPyLineBreak c = false := by
    intro l hl c hc
    obtain ⟨q, _, hq⟩ := List.mem_map.mp hl
    subst hq
    exact pointcloudLineCore_nobreak _ _ _ c hc
  have hsplit : pySplitlines (String.join ((signal_last_aux p rest).map fun q =>
      pointcloudLine q.1 q.2.1 q.2.2)) =
      (signal_last_aux p rest).map fun q =>
        pointcloudLineCore q.1 q.2.1 q.2.2 := by
    unfold pySplitlines
    have htl : (String.join ((signal_last_aux p rest).map fun q =>
        pointcloudLine q.1 q.2.1 q.2.2)).toList =
        (((signal_last_aux p rest).map fun q =>
          (pointcloudLineCore q.1 q.2.1 q.2.2).toList).map fun l =>
            l ++ ['\x0a']).flatten := by
      rw [strJoin_toList, List.map_map, List.map_map]
      refine congrArg List.flatten (List.map_congr_left ?_)
      intro q _
      show (pointcloudLine q.1 q.2.1 q.2.2).toList =
        (pointcloudLineCore q.1 q.2.1 q.2.2).toList ++ ['\x0a']
      unfold pointcloudLine
      rw [strToList_append]
      rfl
    rw [htl]
    rw [pySplitlinesL_joined _ _ (by omega) hbrs]
    rw [List.map_map]
    refine List.map_congr_left ?_
    intro q _
    show String.mk (pointcloudLineCore q.1 q.2.1 q.2.2).toList = _
    exact strMk_toList _
  rw [hsplit, signal_last_aux_lines rest p 0 ((p :: rest).length) (by simp)]
  refine ⟨?_, rfl⟩
  simp [enumFrom_length]

/-! ### Parsing the emitted pick-points XML -/

theorem bool_pred_ne {p : Char → Bool} {c d : Char} (h : p c = true)
    (hd : p d = false) : c ≠ d := by
  intro he
  subst he
  rw [h] at hd
  cases hd

theorem isXmlNameCh_not_space {c : Char} (h : isXmlNameCh c = true) :
    isXmlSpace c = false := by
  simp only [isXmlNameCh, Bool.or_eq_true, decide_eq_true_eq] at h
  rcases h with ((((h | h) | h) | h) | h)
  · simp only [asciiAlnum, Bool.or_eq_true, Bool.and_eq_true,
      decide_eq_true_eq] at h
    simp only [isXmlSpace, Bool.or_eq_false_iff, decide_eq_false_iff_not,
      Bool.and_eq_false_iff]
    omega
  all_goals (subst h; decide)

/-- One attribute at the head of the stripped text: `nm="v"` prepends
`(nm, v)` and hands the rest to the continuation. -/

theorem parseXAttrsBody_step
    (pa : List Char → Option (List (String × String) × List Char))
    (nm v rest : List Char)
    (hnm0 : nm ≠ []) (hnm : ∀ c ∈ nm, isXmlNameCh c = true)
    (hv : ∀ c ∈ v, c ≠ '\x22') :
    parseXAttrsBody pa (nm ++ '=' :: '\x22' :: (v ++ '\x22' :: rest)) =
      (pa rest).map fun p => ((String.mk nm, String.mk v) :: p.1, p.2) := by
  obtain ⟨n0, nm', rfl⟩ := List.exists_cons_of_ne_nil hnm0
  have hn0 : isXmlNameCh n0 = true := hnm n0 (by simp)
  have h2 : ((n0 :: nm') ++ '=' :: '\x22' :: (v ++ '\x22' :: rest)).takeWhile
      isXmlNameCh = n0 :: nm' := by
    rw [takeWhile_append_all _ _ hnm,
      takeWhile_cons_false _ (by decide : isXmlNameCh '=' = false),
      List.append_nil]
  have h3 : ((n0 :: nm') ++ '=' :: '\x22' :: (v ++ '\x22' :: rest)).dropWhile
      isXmlNameCh = '=' :: '\x22' :: (v ++ '\x22' :: rest) := by
    rw [dropWhile_append_all _ _ hnm,
      dropWhile_cons_false _ (by decide : isXmlNameCh '=' = false)]
  have hA : ¬((((n0 :: nm') ++ '=' :: '\x22' :: (v ++ '\x22' :: rest)).head? ==
      some '/' || ((n0 :: nm') ++ '=' :: '\x22' :: (v ++ '\x22' :: rest)).head? ==
      some '>') = true) := by
    simp only [List.cons_append, List.head?_cons, Bool.or_eq_true, beq_iff_eq,
      Option.some.injEq]
    push_neg
    exact ⟨bool_pred_ne hn0 (by decide), bool_pred_ne hn0 (by decide)⟩
  have hB : ¬(((n0 :: nm').isEmpty) = true) := by simp
  unfold parseXAttrsBody
  rw [h2, h3, if_neg hA, if_neg hB]
  show (match scanStr '\x22' (v ++ '\x22' :: rest) with
    | some (v2, r4) =>
      (pa r4).map fun p =>
        ((String.mk (n0 :: nm'), String.mk v2) :: p.1, p.2)
    | Option.none => Option.none) =
    (pa rest).map fun p => ((String.mk (n0 :: nm'), String.mk v) :: p.1, p.2)
  rw [scanStr_append _ _ hv]

/-- One attribute (with optional leading whitespace) steps the attribute
parser: `ws nm="v"` prepends `(nm, v)` and continues on the rest with one
unit of fuel spent. -/

theorem parseXAttrs_step (f : Nat) (hf : f ≠ 0) (ws nm v rest : List Char)
    (hws : ∀ c ∈ ws, isXmlSpace c = true)
    (hnm0 : nm ≠ []) (hnm : ∀ c ∈ nm, isXmlNameCh c = true)
    (hv : ∀ c ∈ v, c ≠ '\x22') :
    parseXAttrs f (ws ++ (nm ++ '=' :: '\x22' :: (v ++ '\x22' :: rest))) =
      (parseXAttrs (f - 1) rest).map fun p =>
        ((String.mk nm, String.mk v) :: p.1, p.2) := by
  obtain ⟨f', rfl⟩ : ∃ k, f = k + 1 := ⟨f - 1, by omega⟩
  simp only [Nat.add_sub_cancel]
  have h1 : ((ws ++ (nm ++ '=' :: '\x22' :: (v ++ '\x22' :: rest))).dropWhile
      isXmlSpace) = nm ++ '=' :: '\x22' :: (v ++ '\x22' :: rest) := by
    obtain ⟨n0, nm', rfl⟩ := List.exists_cons_of_ne_nil hnm0
    rw [dropWhile_append_all ws _ hws, List.cons_append,
      dropWhile_cons_false _ (isXmlNameCh_not_space (hnm n0 (by simp)))]
  show parseXAttrsBody (parseXAttrs f')
    ((ws ++ (nm ++ '=' :: '\x22' :: (v ++ '\x22' :: rest))).dropWhile
      isXmlSpace) = _
  rw [h1, parseXAttrsBody_step (parseXAttrs f') nm v rest hnm0 hnm hv]

/-- The attribute parser stops (returning the accumulated rest) at a `/` or
`>` after optional whitespace. -/

theorem parseXAttrs_term (f : Nat) (hf : f ≠ 0) (ws rest : List Char)
    (hws : ∀ c ∈ ws, isXmlSpace c = true)
    (hrest : rest.head? = some '/' ∨ rest.head? = some '>') :
    parseXAttrs f (ws ++ rest) = some ([], rest) := by
  obtain ⟨f', rfl⟩ : ∃ k, f = k + 1 := ⟨f - 1, by omega⟩
  unfold parseXAttrs
  have h1 : (ws ++ rest).dropWhile isXmlSpace = rest := by
    rw [dropWhile_append_all ws _ hws]
    cases rest with
    | nil => rfl
    | cons c r =>
      simp only [List.head?_cons, Option.some.injEq] at hrest
      rcases hrest with rfl | rfl
      · exact dropWhile_cons_false _ (by decide)
      · exact dropWhile_cons_false _ (by decide)
  rw [h1]
  unfold parseXAttrsBody
  rw [if_pos]
  rcases hrest with h | h <;> simp [h]

theorem except_foldlM_one {σ : Type} (f : σ → XTree → Except PPErr σ)
    (acc : σ) (x : XTree) : List.foldlM f acc [x] = f acc x := by
  show (f acc x >>= fun s => List.foldlM f s []) = f acc x
  rcases f acc x with e | a
  · rfl
  · rfl

/-- A point element whose `x` attribute is present but does not parse as a
float is skipped: the accumulator is returned unchanged. -/

theorem ppPoint_x_unparsable (tag : String) (attrs : List (String × String))
    (ch : List XTree) (acc : List (String × Vec3)) (t : String)
    (h1 : getAttr attrs ("x") = some t)
    (h2 : floatOfString t = Option.none) :
    ppPoint acc (XTree.elem tag attrs ch) = Except.ok acc := by
  simp only [ppPoint, h1, h2]

/-- C5: a well-formed XML input whose single point element carries an `x`
attribute that does not parse as a float (and numeric `y`, `z`, a `name`)
yields the empty PointSet with no raised error: the malformed point is
dropped silently. -/

theorem c5_malformed_point_dropped (t : String)
    (hq : ∀ c ∈ t.toList, c ≠ '\x22')
    (hnf : floatOfString t = Option.none) :
    parse_pp_file (c5Input t) = Except.ok [] := by
  have hL2 : c5R2.length = 23 := rfl
  have hL1 : (c5R1 t).length = t.toList.length + 28 := by
    unfold c5R1
    simp only [List.length_append, List.length_cons]
    rw [hL2]
    have h4 : ((" x=\x22").toList).length = 4 := rfl
    rw [h4]
    omega
  have e1 : parseXAttrs ((c5R1 t).length + 1) (c5R1 t) =
      (parseXAttrs ((c5R1 t).length) c5R2).map fun p =>
        ((("x"), t) :: p.1, p.2) :=
    parseXAttrs_step ((c5R1 t).length + 1) (by omega) [' '] ['x'] t.toList
      c5R2 (by decide) (by decide) (by decide) hq
  have e2 : parseXAttrs ((c5R1 t).length) c5R2 =
      (parseXAttrs ((c5R1 t).length - 1) c5R3).map fun p =>
        ((("y"), ("1")) :: p.1, p.2) :=
    parseXAttrs_step ((c5R1 t).length) (by omega) [' '] ['y'] ['1'] c5R3
      (by decide) (by decide) (by decide) (by decide)
  have e3 : parseXAttrs ((c5R1 t).length - 1) c5R3 =
      (parseXAttrs ((c5R1 t).length - 1 - 1) c5R4).map fun p =>
        ((("z"), ("2")) :: p.1, p.2) :=
    parseXAttrs_step ((c5R1 t).length - 1) (by omega) [' '] ['z'] ['2'] c5R4
      (by decide) (by decide) (by decide) (by decide)
  have e4 : parseXAttrs ((c5R1 t).length - 1 - 1) c5R4 =
      (parseXAttrs ((c5R1 t).length - 1 - 1 - 1) (['/', '>'])).map fun p =>
        ((("name"), ("Q")) :: p.1, p.2) :=
    parseXAttrs_step ((c5R1 t).length - 1 - 1) (by omega) [' ']
      ('n' :: 'a' :: 'm' :: 'e' :: []) ['Q'] (['/', '>'])
      (by decide) (by decide) (by decide) (by decide)
  have e5 : parseXAttrs ((c5R1 t).length - 1 - 1 - 1) (['/', '>']) =
      some ([], ['/', '>']) :=
    parseXAttrs_term ((c5R1 t).length - 1 - 1 - 1) (by omega) [] (['/', '>'])
      (by simp) (Or.inl rfl)
  have hattrs : parseXAttrs ((c5R1 t).length + 1) (c5R1 t) =
      some ([(("x"), t), (("y"), ("1")), (("z"), ("2")), (("name"), ("Q"))],
        ['/', '>']) := by
    rw [e1, e2, e3, e4, e5]
    rfl
  have helem : parseXElement (((c5Input t).toList).length + 1)
      ((c5Input t).toList) =
      some (XTree.elem ("point")
        [(("x"), t), (("y"), ("1")), (("z"), ("2")), (("name"), ("Q"))] [],
        []) := by
    show parseXElemTail (("point").toList)
      (parseXElement (((c5Input t).toList).length))
      (parseXAttrs ((c5R1 t).length + 1) (c5R1 t)) = _
    rw [hattrs]
    rfl
  have hskip : skipProlog ((((c5Input t).toList).length) + 1)
      ((c5Input t).toList) = (c5Input t).toList := rfl
  have hxml : xmlFromString (c5Input t) =
      Except.ok (XTree.elem ("point")
        [(("x"), t), (("y"), ("1")), (("z"), ("2")), (("name"), ("Q"))] []) := by
    show xmlFinish (parseXElement
      ((skipProlog ((((c5Input t).toList).length) + 1) ((c5Input t).toList)).length + 1)
      (skipProlog ((((c5Input t).toList).length) + 1) ((c5Input t).toList))) = _
    rw [hskip, helem]
    rfl
  show ppFromXml (((c5Input t).toList).length + 1) (xmlFromString (c5Input t)) =
    Except.ok []
  rw [hxml]
  show ([XTree.elem ("point")
    [(("x"), t), (("y"), ("1")), (("z"), ("2")), (("name"), ("Q"))] []]).foldlM
    ppPoint ([] : List (String × Vec3)) = Except.ok []
  rw [except_foldlM_one]
  exact ppPoint_x_unparsable ("point")
    [(("x"), t), (("y"), ("1")), (("z"), ("2")), (("name"), ("Q"))] [] [] t rfl hnf

/-- Witness for C5 at the spec's own example value `a`. -/

theorem c5_malformed_point_dropped_witness :
    parse_pp_file (c5Input ("a")) = Except.ok [] :=
  c5_malformed_point_dropped ("a") (by decide) rfl

/-- A float as printed never contains a double quote, so it is safe as an
XML attribute value. -/

theorem pyRepr_noquote (f : PyFloat) : ∀ c ∈ pyReprFL f, c ≠ '\x22' := by
  intro c hc
  rcases pyReprFL_chars f c hc with h | h | h | h | h | h | h
  · exact bool_pred_ne h (by decide)
  all_goals (subst h; decide)

theorem identSafe_noquote (s : String) (h : identSafe s = true) :
    ∀ c ∈ s.toList, c ≠ '\x22' := by
  simp only [identSafe, Bool.and_eq_true, List.all_eq_true] at h
  intro c hc he
  subst he
  exact absurd (h.2 _ hc) (by decide)

/-- C2 (amended): for a single point with an identifier-safe name and
canonically printed finite coordinates, writing the pick-points XML and
reading it back returns exactly that point (for two or more points the
writer emits several root elements and the reader rejects the file, as the
counterexample shows). -/

theorem c2_roundtrip_amended (nm : String) (x y z : PyFloat)
    (hnm : identSafe nm = true)
    (hx : x.isCanonF = true) (hy : y.isCanonF = true)
    (hz : z.isCanonF = true) :
    parse_pp_file (format_ppfile [(nm, (x, y, z))]) =
      Except.ok [(nm, (x, y, z))] := by
  have hvnm : ∀ c ∈ nm.toList, c ≠ '\x22' := identSafe_noquote nm hnm
  have hS : (format_ppfile [(nm, (x, y, z))]).toList =
      ("<point").toList ++ c2R1 x y z nm := by
    show (("<point x=\x22") ++ pyRepr x ++ ("\x22 y=\x22") ++ pyRepr y ++
      ("\x22 z=\x22") ++ pyRepr z ++ ("\x22 active=\x221\x22 name=\x22") ++
      nm ++ ("\x22 />\x0a")).toList = _
    simp only [strToList_append]
    rw [show ("<point x=\x22").toList =
        ("<point").toList ++ ((" x=\x22").toList) from rfl,
      show ("\x22 y=\x22").toList = ['\x22'] ++ ((" y=\x22").toList) from rfl,
      show ("\x22 z=\x22").toList = ['\x22'] ++ ((" z=\x22").toList) from rfl,
      show ("\x22 active=\x221\x22 name=\x22").toList =
        ['\x22'] ++ (((" active=\x221\x22").toList) ++
          ((" name=\x22").toList)) from rfl,
      show ("\x22 />\x0a").toList = ['\x22'] ++ c2Rend from rfl]
    simp only [c2R1, c2R2, c2R3, c2R4, c2R5, List.append_assoc,
      List.cons_append, List.nil_append]
  have hL1 : (c2R1 x y z nm).length = (pyRepr x).toList.length +
      ((pyRepr y).toList.length + ((pyRepr z).toList.length +
        (nm.toList.length + 38))) := by
    simp only [c2R1, c2R2, c2R3, c2R4, c2R5, c2Rend, List.length_append,
      List.length_cons, List.length_nil]
    rw [show ((" x=\x22").toList).length = 4 from rfl,
      show ((" y=\x22").toList).length = 4 from rfl,
      show ((" z=\x22").toList).length = 4 from rfl,
      show ((" active=\x221\x22").toList).length = 11 from rfl,
      show ((" name=\x22").toList).length = 7 from rfl]
    omega
  have e1 : parseXAttrs ((c2R1 x y z nm).length + 1) (c2R1 x y z nm) =
      (parseXAttrs ((c2R1 x y z nm).length) (c2R2 y z nm)).map fun p =>
        ((("x"), pyRepr x) :: p.1, p.2) :=
    parseXAttrs_step ((c2R1 x y z nm).length + 1) (by omega) [' '] ['x']
      ((pyRepr x).toList) (c2R2 y z nm) (by decide) (by decide) (by decide)
      (pyRepr_noquote x)
  have e2 : parseXAttrs ((c2R1 x y z nm).length) (c2R2 y z nm) =
      (parseXAttrs ((c2R1 x y z nm).length - 1) (c2R3 z nm)).map fun p =>
        ((("y"), pyRepr y) :: p.1, p.2) :=
    parseXAttrs_step ((c2R1 x y z nm).length) (by omega) [' '] ['y']
      ((pyRepr y).toList) (c2R3 z nm) (by decide) (by decide) (by decide)
      (pyRepr_noquote y)
  have e3 : parseXAttrs ((c2R1 x y z nm).length - 1) (c2R3 z nm) =
      (parseXAttrs ((c2R1 x y z nm).length - 1 - 1) (c2R4 nm)).map fun p =>
        ((("z"), pyRepr z) :: p.1, p.2) :=
    parseXAttrs_step ((c2R1 x y z nm).length - 1) (by omega) [' '] ['z']
      ((pyRepr z).toList) (c2R4 nm) (by decide) (by decide) (by decide)
      (pyRepr_noquote z)
  have e4 : parseXAttrs ((c2R1 x y z nm).length - 1 - 1) (c2R4 nm) =
      (parseXAttrs ((c2R1 x y z nm).length - 1 - 1 - 1) (c2R5 nm)).map
        fun p => ((("active"), ("1")) :: p.1, p.2) :=
    parseXAttrs_step ((c2R1 x y z nm).length - 1 - 1) (by omega) [' ']
      ('a' :: 'c' :: 't' :: 'i' :: 'v' :: 'e' :: []) ['1'] (c2R5 nm)
      (by decide) (by decide) (by decide) (by decide)
  have e5 : parseXAttrs ((c2R1 x y z nm).length - 1 - 1 - 1) (c2R5 nm) =
      (parseXAttrs ((c2R1 x y z nm).length - 1 - 1 - 1 - 1) c2Rend).map
        fun p => ((("name"), nm) :: p.1, p.2) :=
    parseXAttrs_step ((c2R1 x y z nm).length - 1 - 1 - 1) (by omega) [' ']
      ('n' :: 'a' :: 'm' :: 'e' :: []) (nm.toList) c2Rend
      (by decide) (by decide) (by decide) hvnm
  have e6 : parseXAttrs ((c2R1 x y z nm).length - 1 - 1 - 1 - 1) c2Rend =
      some ([], ['/', '>', '\x0a']) :=
    parseXAttrs_term ((c2R1 x y z nm).length - 1 - 1 - 1 - 1) (by omega)
      [' '] (['/', '>', '\x0a']) (by decide) (Or.inl rfl)
  have hattrs : parseXAttrs ((c2R1 x y z nm).length + 1) (c2R1 x y z nm) =
      some ([(("x"), pyRepr x), (("y"), pyRepr y), (("z"), pyRepr z),
        (("active"), ("1")), (("name"), nm)], ['/', '>', '\x0a']) := by
    rw [e1, e2, e3, e4, e5, e6]
    rfl
  have helem : parseXElement ((("<point").toList ++ c2R1 x y z nm).length + 1)
      (("<point").toList ++ c2R1 x y z nm) =
      some (XTree.elem ("point")
        [(("x"), pyRepr x), (("y"), pyRepr y), (("z"), pyRepr z),
          (("active"), ("1")), (("name"), nm)] [], ['\x0a']) := by
    show parseXElemTail (("point").toList)
      (parseXElement ((("<point").toList ++ c2R1 x y z nm).length))
      (parseXAttrs ((c2R1 x y z nm).length + 1) (c2R1 x y z nm)) = _
    rw [hattrs]
    rfl
  have hskip : skipProlog (((("<point").toList ++ c2R1 x y z nm).length) + 1)
      (("<point").toList ++ c2R1 x y z nm) =
      ("<point").toList ++ c2R1 x y z nm := rfl
  have hxml : xmlFromString (format_ppfile [(nm, (x, y, z))]) =
      Except.ok (XTree.elem ("point")
        [(("x"), pyRepr x), (("y"), pyRepr y), (("z"), pyRepr z),
          (("active"), ("1")), (("name"), nm)] []) := by
    show xmlFinish (parseXElement
      ((skipProlog (((format_ppfile [(nm, (x, y, z))]).toList).length + 1)
        ((format_ppfile [(nm, (x, y, z))]).toList)).length + 1)
      (skipProlog (((format_ppfile [(nm, (x, y, z))]).toList).length + 1)
        ((format_ppfile [(nm, (x, y, z))]).toList))) = _
    rw [hS, hskip, helem]
    rfl
  have g1 : getAttr [(("x"), pyRepr x), (("y"), pyRepr y), (("z"), pyRepr z),
      (("active"), ("1")), (("name"), nm)] ("x") = some (pyRepr x) := rfl
  have g2 : getAttr [(("x"), pyRepr x), (("y"), pyRepr y), (("z"), pyRepr z),
      (("active"), ("1")), (("name"), nm)] ("y") = some (pyRepr y) := rfl
  have g3 : getAttr [(("x"), pyRepr x), (("y"), pyRepr y), (("z"), pyRepr z),
      (("active"), ("1")), (("name"), nm)] ("z") = some (pyRepr z) := rfl
  have g4 : getAttr [(("x"), pyRepr x), (("y"), pyRepr y), (("z"), pyRepr z),
      (("active"), ("1")), (("name"), nm)] ("name") = some nm := rfl
  have hpp : ppPoint [] (XTree.elem ("point")
      [(("x"), pyRepr x), (("y"), pyRepr y), (("z"), pyRepr z),
        (("active"), ("1")), (("name"), nm)] []) =
      Except.ok [(nm, (x, y, z))] := by
    simp only [ppPoint, g1, floatOfString_pyRepr x hx, g2,
      floatOfString_pyRepr y hy, g3, floatOfString_pyRepr z hz, g4]
    rfl
  show ppFromXml (((format_ppfile [(nm, (x, y, z))]).toList).length + 1)
    (xmlFromString (format_ppfile [(nm, (x, y, z))])) =
    Except.ok [(nm, (x, y, z))]
  rw [hxml, hS]
  show ([XTree.elem ("point")
    [(("x"), pyRepr x), (("y"), pyRepr y), (("z"), pyRepr z),
      (("active"), ("1")), (("name"), nm)] []]).foldlM ppPoint
    ([] : List (String × Vec3)) = Except.ok [(nm, (x, y, z))]
  rw [except_foldlM_one]
  exact hpp

/-- Witness for C2 at a concrete point with name `P1` and coordinates
`1.0`, `2.0`, `2.5`. -/

theorem c2_roundtrip_amended_witness :
    identSafe ("P1") = true ∧
    PyFloat.isCanonF (PyFloat.finite 25 1) = true ∧
    parse_pp_file (format_ppfile [(("P1"),
      (PyFloat.finite 1 0, PyFloat.finite 2 0, PyFloat.finite 25 1))]) =
      Except.ok [(("P1"),
        (PyFloat.finite 1 0, PyFloat.finite 2 0, PyFloat.finite 25 1))] :=
  ⟨by decide, by decide,
    c2_roundtrip_amended ("P1") (PyFloat.finite 1 0) (PyFloat.finite 2 0)
      (PyFloat.finite 25 1) (by decide) (by decide) (by decide) (by decide)⟩

/-- Processing one element either succeeds or raises a `KeyError`; the
`FormatError` constructor is reserved for the XML-parse failure. -/

theorem ppPoint_shape (acc : List (String × Vec3)) (t : XTree) :
    (∃ r, ppPoint acc t = Except.ok r) ∨
    (∃ k, ppPoint acc t = Except.error (PPErr.keyError k)) := by
  rcases t with ⟨tag, attrs, ch⟩
  cases hx : getAttr attrs ("x") with
  | none => exact Or.inr ⟨("x"), by simp only [ppPoint, hx]⟩
  | some xs =>
  cases hfx : floatOfString xs with
  | none => exact Or.inl ⟨acc, by simp only [ppPoint, hx, hfx]⟩
  | some x =>
  cases hy : getAttr attrs ("y") with
  | none => exact Or.inr ⟨("y"), by simp only [ppPoint, hx, hfx, hy]⟩
  | some ys =>
  cases hfy : floatOfString ys with
  | none => exact Or.inl ⟨acc, by simp only [ppPoint, hx, hfx, hy, hfy]⟩
  | some y =>
  cases hz : getAttr attrs ("z") with
  | none => exact Or.inr ⟨("z"), by simp only [ppPoint, hx, hfx, hy, hfy, hz]⟩
  | some zs =>
  cases hfz : floatOfString zs with
  | none =>
    exact Or.inl ⟨acc, by simp only [ppPoint, hx, hfx, hy, hfy, hz, hfz]⟩
  | some z =>
  cases hn : getAttr attrs ("name") with
  | none =>
    exact Or.inr ⟨("name"),
      by simp only [ppPoint, hx, hfx, hy, hfy, hz, hfz, hn]⟩
  | some nm =>
    exact Or.inl ⟨dictInsert nm (x, y, z) acc,
      by simp only [ppPoint, hx, hfx, hy, hfy, hz, hfz, hn]⟩

/-- Processing one element succeeds whenever the element carries the four
attributes (a coordinate that fails to float-parse only skips it). -/

theorem ppPoint_ok_of_attrs (acc : List (String × Vec3)) (t : XTree)
    (h : hasPointAttrs t = true) : ∃ r, ppPoint acc t = Except.ok r := by
  rcases t with ⟨tag, attrs, ch⟩
  simp only [hasPointAttrs, Bool.and_eq_true, Option.isSome_iff_exists] at h
  obtain ⟨⟨⟨⟨xs, hx⟩, ⟨ys, hy⟩⟩, ⟨zs, hz⟩⟩, ⟨nm, hn⟩⟩ := h
  cases hfx : floatOfString xs with
  | none => exact ⟨acc, by simp only [ppPoint, hx, hfx]⟩
  | some x =>
  cases hfy : floatOfString ys with
  | none => exact ⟨acc, by simp only [ppPoint, hx, hfx, hy, hfy]⟩
  | some y =>
  cases hfz : floatOfString zs with
  | none => exact ⟨acc, by simp only [ppPoint, hx, hfx, hy, hfy, hz, hfz]⟩
  | some z =>
    exact ⟨dictInsert nm (x, y, z) acc,
      by simp only [ppPoint, hx, hfx, hy, hfy, hz, hfz, hn]⟩

/-- The fold over the point elements returns normally when every element
carries the four attributes. -/

theorem foldlM_ok_of_attrs (l : List XTree) : ∀ acc : List (String × Vec3),
    (∀ t2 ∈ l, hasPointAttrs t2 = true) →
    ∃ r, l.foldlM ppPoint acc = Except.ok r := by
  induction l with
  | nil => exact fun acc _ => ⟨acc, rfl⟩
  | cons x xs ih =>
    intro acc h
    obtain ⟨r, hr⟩ := ppPoint_ok_of_attrs acc x (h x (by simp))
    obtain ⟨r2, hr2⟩ := ih r fun t2 ht => h t2 (by simp [ht])
    refine ⟨r2, ?_⟩
    show (ppPoint acc x >>= fun s => xs.foldlM ppPoint s) = Except.ok r2
    rw [hr]
    exact hr2

/-- The fold over the point elements never raises the `FormatError` which
the XML-parse failure alone produces. -/

theorem foldlM_no_format (l : List XTree) : ∀ (acc : List (String × Vec3))
    (msg : String), l.foldlM ppPoint acc ≠ Except.error (PPErr.formatError msg) := by
  induction l with
  | nil => exact fun acc msg h => Except.noConfusion h
  | cons x xs ih =>
    intro acc msg h
    rcases ppPoint_shape acc x with ⟨r, hr⟩ | ⟨k, hk⟩
    · rw [show (x :: xs).foldlM ppPoint acc =
        (ppPoint acc x >>= fun s => xs.foldlM ppPoint s) from rfl, hr] at h
      exact ih r msg h
    · rw [show (x :: xs).foldlM ppPoint acc =
        (ppPoint acc x >>= fun s => xs.foldlM ppPoint s) from rfl, hk] at h
      have h2 : (Except.error (PPErr.keyError k) :
        Except PPErr (List (String × Vec3))) =
        Except.error (PPErr.formatError msg) := h
      injection h2 with h3
      exact PPErr.noConfusion h3

/-- C4 (amended): `parse_pp_file` raises the `FormatError` (whose message
carries the underlying diagnostic) exactly when the XML reader rejects the
input; on accepted input it returns a PointSet provided every `point`
element carries the `x`, `y`, `z` and `name` attributes (a missing one
raises the uncaught `KeyError` instead, so the unconditional half of the
original claim fails, as the counterexample shows). -/

theorem c4_parse_error_amended (data : String) :
    (∀ e, xmlFromString data = Except.error e →
      parse_pp_file data = Except.error
        (PPErr.formatError (("Could not parse XML file: ") ++ e))) ∧
    (∀ tree, xmlFromString data = Except.ok tree →
      (∀ t2 ∈ iterTag ((data.toList.length) + 1) ("point") tree,
        hasPointAttrs t2 = true) →
      ∃ ps, parse_pp_file data = Except.ok ps) ∧
    (∀ msg, parse_pp_file data = Except.error (PPErr.formatError msg) →
      ∃ e, xmlFromString data = Except.error e ∧
        msg = ("Could not parse XML file: ") ++ e) := by
  refine ⟨?_, ?_, ?_⟩
  · intro e he
    show ppFromXml ((data.toList.length) + 1) (xmlFromString data) =
      Except.error (PPErr.formatError (("Could not parse XML file: ") ++ e))
    rw [he]
    rfl
  · intro tree ht hall
    obtain ⟨r, hr⟩ := foldlM_ok_of_attrs
      (iterTag ((data.toList.length) + 1) ("point") tree) [] hall
    refine ⟨r, ?_⟩
    show ppFromXml ((data.toList.length) + 1) (xmlFromString data) =
      Except.ok r
    rw [ht]
    exact hr
  · intro msg hp
    have hp2 : ppFromXml ((data.toList.length) + 1) (xmlFromString data) =
      Except.error (PPErr.formatError msg) := hp
    cases hx : xmlFromString data with
    | error e =>
      rw [hx] at hp2
      have h2 : (Except.error
        (PPErr.formatError (("Could not parse XML file: ") ++ e)) :
        Except PPErr (List (String × Vec3))) =
        Except.error (PPErr.formatError msg) := hp2
      injection h2 with h3
      injection h3 with h4
      exact ⟨e, rfl, h4.symm⟩
    | ok tree =>
      rw [hx] at hp2
      exact absurd hp2
        (foldlM_no_format (iterTag ((data.toList.length) + 1) ("point") tree)
          [] msg)

/-- Witness for C4: a truncated input is rejected with the propagated
diagnostic, and a well-formed input whose (zero) point elements all carry
the attributes is parsed without an error. -/

theorem c4_parse_error_amended_witness :
    parse_pp_file ("<") = Except.error
      (PPErr.formatError (("Could not parse XML file: ") ++ ("syntax error"))) ∧
    (∃ ps, parse_pp_file ("<a/>") = Except.ok ps) ∧
    (∃ e, xmlFromString ("<") = Except.error e ∧
      (("Could not parse XML file: ") ++ ("syntax error")) =
        ("Could not parse XML file: ") ++ e) :=
  ⟨(c4_parse_error_amended ("<")).1 ("syntax error") rfl,
   (c4_parse_error_amended ("<a/>")).2.1 (XTree.elem ("a") [] []) rfl
     (by decide),
   (c4_parse_error_amended ("<")).2.2
     (("Could not parse XML file: ") ++ ("syntax error")) rfl⟩

/-- Witness for C9 at a concrete two-point set. -/

theorem c9_lines_and_trailing_comma_witness :
    c9Points ≠ [] ∧
    (∃ out, format_anyscript_pointcloud c9Points = some out ∧
      (pySplitlines out).length = c9Points.length ∧
      pySplitlines out = (enumFrom 0 c9Points).map (fun q =>
        ("\x7b") ++ coordBody q.2.2 ++ ("\x7d") ++
          (if q.1 + 1 < c9Points.length then (",") else ("")) ++ (" // ") ++
          sanitizeName q.2.1 ++ (" "))) :=
  ⟨by simp [c9Points], c9_lines_and_trailing_comma c9Points (by simp [c9Points])⟩

end Anypp
